import Mathlib

/-!
Verification development for the loop-state state-machine builder of the
`brockassemble` entity-building library (`brockassemble/entity.py` and the
component factory in `brockassemble/component.py`).

The Python code is shallowly embedded: every class becomes a structure (or a
single-constructor inductive where the class is recursive), every method a
function on that structure, and the JSON documents the library assembles become
values of an inductive `JVal` type.  Python dictionaries are modelled as
insertion-ordered association lists with Python's assignment semantics
(updating an existing key keeps its position, a new key is appended).  Python
`float` values are never computed with by the embedded code, only carried into
the output documents, so they are modelled by their `repr` text (`JVal.f`);
Python `int` values are modelled by `Int`.  Fallible operations (list indexing
that can raise `IndexError`, `json.loads` of an arbitrary string, the
string-variable replacement that can raise `TypeError`) return `Option`.
-/

namespace Brock

/-- JSON values as assembled by the library.  `f` carries the `repr` text of a
Python float verbatim (no arithmetic is ever performed on floats); `obj` keeps
keys in Python dict insertion order. -/
inductive JVal : Type where
  | null : JVal
  | b : Bool → JVal
  | i : Int → JVal
  | f : String → JVal
  | s : String → JVal
  | arr : List JVal → JVal
  | obj : List (String × JVal) → JVal
deriving Repr

mutual
/-- Boolean equality on `JVal` (the derive handler does not support nested
inductives in this toolchain). -/
def jeqB : JVal → JVal → Bool
  | .null, .null => true
  | .b a, .b c => a == c
  | .i a, .i c => a == c
  | .f a, .f c => a == c
  | .s a, .s c => a == c
  | .arr a, .arr c => jeqL a c
  | .obj a, .obj c => jeqKV a c
  | _, _ => false

def jeqL : List JVal → List JVal → Bool
  | [], [] => true
  | a :: as, c :: cs => jeqB a c && jeqL as cs
  | _, _ => false

def jeqKV : List (String × JVal) → List (String × JVal) → Bool
  | [], [] => true
  | (k, v) :: ps, (k', v') :: qs => k == k' && jeqB v v' && jeqKV ps qs
  | _, _ => false
end

mutual
theorem jeqB_iff : ∀ a c, jeqB a c = true ↔ a = c
  | .null, .null => by simp [jeqB]
  | .b a, .b c => by simp [jeqB]
  | .i a, .i c => by simp [jeqB]
  | .f a, .f c => by simp [jeqB]
  | .s a, .s c => by simp [jeqB]
  | .arr a, .arr c => by simp [jeqB, jeqL_iff a c]
  | .obj a, .obj c => by simp [jeqB, jeqKV_iff a c]
  | .null, .b _ | .null, .i _ | .null, .f _ | .null, .s _ | .null, .arr _
  | .null, .obj _ => by simp [jeqB]
  | .b _, .null | .b _, .i _ | .b _, .f _ | .b _, .s _ | .b _, .arr _
  | .b _, .obj _ => by simp [jeqB]
  | .i _, .null | .i _, .b _ | .i _, .f _ | .i _, .s _ | .i _, .arr _
  | .i _, .obj _ => by simp [jeqB]
  | .f _, .null | .f _, .b _ | .f _, .i _ | .f _, .s _ | .f _, .arr _
  | .f _, .obj _ => by simp [jeqB]
  | .s _, .null | .s _, .b _ | .s _, .i _ | .s _, .f _ | .s _, .arr _
  | .s _, .obj _ => by simp [jeqB]
  | .arr _, .null | .arr _, .b _ | .arr _, .i _ | .arr _, .f _ | .arr _, .s _
  | .arr _, .obj _ => by simp [jeqB]
  | .obj _, .null | .obj _, .b _ | .obj _, .i _ | .obj _, .f _ | .obj _, .s _
  | .obj _, .arr _ => by simp [jeqB]

theorem jeqL_iff : ∀ as cs, jeqL as cs = true ↔ as = cs
  | [], [] => by simp [jeqL]
  | a :: as, c :: cs => by
    simp [jeqL, jeqB_iff a c, jeqL_iff as cs]
  | [], _ :: _ => by simp [jeqL]
  | _ :: _, [] => by simp [jeqL]

theorem jeqKV_iff : ∀ ps qs, jeqKV ps qs = true ↔ ps = qs
  | [], [] => by simp [jeqKV]
  | (k, v) :: ps, (k', v') :: qs => by
    simp [jeqKV, jeqB_iff v v', jeqKV_iff ps qs, and_assoc, Prod.ext_iff]
  | [], _ :: _ => by simp [jeqKV]
  | _ :: _, [] => by simp [jeqKV]
end

instance : DecidableEq JVal := fun a c => decidable_of_iff _ (jeqB_iff a c)

/-- Python dict assignment `d[k] = v`: replace the value in place if the key
exists (keeping its position), otherwise append the new pair. -/
def jput (kvs : List (String × JVal)) (k : String) (v : JVal) :
    List (String × JVal) :=
  match kvs with
  | [] => [(k, v)]
  | (k', v') :: rest => if k' = k then (k, v) :: rest else (k', v') :: jput rest k v

/-- Python dict lookup `d[k]` / `k in d`: first (equivalently only, for
`jput`-built dicts) binding of `k`. -/
def jfind (kvs : List (String × JVal)) (k : String) : Option JVal :=
  match kvs with
  | [] => none
  | (k', v') :: rest => if k' = k then some v' else jfind rest k

/-- Field lookup inside a `JVal.obj`; `none` on any other constructor. -/
def JVal.lookup : JVal → String → Option JVal
  | .obj kvs, k => jfind kvs k
  | _, _ => none

/-- Lookup along a path of object keys. -/
def jpath (v : JVal) (ks : List String) : Option JVal :=
  ks.foldl (fun acc k => acc.bind (·.lookup k)) (some v)

/-! ### `json.dumps` / `str.replace` / `json.loads`

`Behaviors.get_json` resolves branching loop-state names textually: it
serializes the whole document with `json.dumps`, runs `str.replace` for every
resolved branch name, and re-parses with `json.loads`.  The three functions are
embedded below for the document fragment the library produces (ASCII strings;
the serializer escapes the characters Python's `json.dumps` escapes among
those the library can emit). -/

/-- JSON string-literal escaping of one character (the ASCII fragment of
`json.dumps`' `ensure_ascii` output). -/
def jescChar (c : Char) : List Char :=
  if c = '"' then ['\\', '"']
  else if c = '\\' then ['\\', '\\']
  else if c = '\n' then ['\\', 'n']
  else if c = '\t' then ['\\', 't']
  else if c = '\r' then ['\\', 'r']
  else [c]

/-- A JSON string literal, quotes included. -/
def jstr (s : String) : String :=
  ⟨'"' :: (s.data.foldr (fun c acc => jescChar c ++ acc) ['"'])⟩

mutual
/-- `json.dumps` with Python's default separators `", "` and `": "`. -/
def dumpJ : JVal → String
  | .null => "null"
  | .b true => "true"
  | .b false => "false"
  | .i n => toString n
  | .f lit => lit
  | .s str => jstr str
  | .arr vs => "[" ++ String.intercalate ", " (dumpList vs) ++ "]"
  | .obj kvs => "\x7b" ++ String.intercalate ", " (dumpObj kvs) ++ "\x7d"

def dumpList : List JVal → List String
  | [] => []
  | v :: vs => dumpJ v :: dumpList vs

def dumpObj : List (String × JVal) → List String
  | [] => []
  | (k, v) :: kvs => (jstr k ++ ": " ++ dumpJ v) :: dumpObj kvs
end

/-- One step of Python `str.replace`: non-overlapping occurrences are replaced
left to right.  `fuel` bounds the scan (instantiated with the length of the
subject, which suffices since every step consumes at least one character). -/
def replaceCore (pat rep : List Char) : Nat → List Char → List Char
  | _, [] => []
  | 0, s => s
  | fuel + 1, c :: rest =>
    if pat.isPrefixOf (c :: rest) then
      rep ++ replaceCore pat rep fuel ((c :: rest).drop pat.length)
    else
      c :: replaceCore pat rep fuel rest

/-- Python `str.replace(pat, rep)` for a non-empty pattern (the library only
replaces branch names, which are non-empty; an empty pattern is returned
unchanged here). -/
def pyReplace (s pat rep : String) : String :=
  if pat.data = [] then s
  else ⟨replaceCore pat.data rep.data s.data.length s.data⟩

/-- Whitespace as skipped by `json.loads`. -/
def jsonWs (c : Char) : Bool :=
  c = ' ' || c = '\n' || c = '\t' || c = '\r'

def skipWs : List Char → List Char
  | [] => []
  | c :: rest => if jsonWs c then skipWs rest else c :: rest

/-- Decimal digits of a number token to a natural number. -/
def digitsToNat (ds : List Char) : Nat :=
  ds.foldl (fun n c => n * 10 + (c.toNat - 48)) 0

/-- Characters that may appear in a JSON number token. -/
def numChar (c : Char) : Bool :=
  c.isDigit || c = '-' || c = '+' || c = '.' || c = 'e' || c = 'E'

/-- Longest prefix of number-token characters, with the rest of the input. -/
def takeNum : List Char → List Char × List Char
  | [] => ([], [])
  | c :: rest =>
    if numChar c then
      let (tok, rest') := takeNum rest
      (c :: tok, rest')
    else ([], c :: rest)

/-- Classify a number token the way `json.loads` does: a token with a fraction
or exponent part is a float (kept as its literal text), otherwise an integer. -/
def numOfToken (tok : List Char) : Option JVal :=
  if tok = [] then none
  else if tok.any (fun c => c = '.' || c = 'e' || c = 'E') then
    some (.f ⟨tok⟩)
  else
    match tok with
    | '-' :: ds => if ds = [] || ¬ ds.all Char.isDigit then none
                   else some (.i (-(digitsToNat ds : Int)))
    | ds => if ¬ ds.all Char.isDigit then none
            else some (.i (digitsToNat ds))

/-- Body of a JSON string literal (opening quote already consumed), undoing the
escapes `jescChar` produces. -/
def parseStr : Nat → List Char → Option (String × List Char)
  | 0, _ => none
  | _, [] => none
  | fuel + 1, c :: rest =>
    if c = '"' then some ("", rest)
    else if c = '\\' then
      match rest with
      | [] => none
      | e :: rest' =>
        let dec : Option Char :=
          if e = '"' then some '"'
          else if e = '\\' then some '\\'
          else if e = 'n' then some '\n'
          else if e = 't' then some '\t'
          else if e = 'r' then some '\r'
          else none
        match dec with
        | none => none
        | some d =>
          match parseStr fuel rest' with
          | some (s, rem) => some (⟨d :: s.data⟩, rem)
          | none => none
    else
      match parseStr fuel rest with
      | some (s, rem) => some (⟨c :: s.data⟩, rem)
      | none => none

mutual
/-- `json.loads`' recursive-descent value parser.  `fuel` bounds the recursion;
it is instantiated with the input length, which suffices since every recursive
call consumes at least one character. -/
def parseJ : Nat → List Char → Option (JVal × List Char)
  | 0, _ => none
  | fuel + 1, cs =>
    match skipWs cs with
    | [] => none
    | c :: rest =>
      if c = '{' then
        match skipWs rest with
        | '}' :: rest' => some (.obj [], rest')
        | rest' => parseMembers fuel rest' []
      else if c = '[' then
        match skipWs rest with
        | ']' :: rest' => some (.arr [], rest')
        | rest' => parseElems fuel rest' []
      else if c = '"' then
        match parseStr fuel rest with
        | some (s, rem) => some (.s s, rem)
        | none => none
      else if ['t', 'r', 'u', 'e'].isPrefixOf (c :: rest) then
        some (.b true, (c :: rest).drop 4)
      else if ['f', 'a', 'l', 's', 'e'].isPrefixOf (c :: rest) then
        some (.b false, (c :: rest).drop 5)
      else if ['n', 'u', 'l', 'l'].isPrefixOf (c :: rest) then
        some (.null, (c :: rest).drop 4)
      else
        let (tok, rest') := takeNum (c :: rest)
        match numOfToken tok with
        | some v => some (v, rest')
        | none => none

/-- Members of an object (after `{`, first key expected); duplicate keys keep
the last value, as in Python. -/
def parseMembers : Nat → List Char → List (String × JVal) →
    Option (JVal × List Char)
  | 0, _, _ => none
  | fuel + 1, cs, acc =>
    match skipWs cs with
    | '"' :: rest =>
      match parseStr fuel rest with
      | none => none
      | some (k, rem) =>
        match skipWs rem with
        | ':' :: rem' =>
          match parseJ fuel rem' with
          | none => none
          | some (v, rem'') =>
            match skipWs rem'' with
            | ',' :: rem''' => parseMembers fuel rem''' (jput acc k v)
            | '}' :: rem''' => some (.obj (jput acc k v), rem''')
            | _ => none
        | _ => none
    | _ => none

/-- Elements of an array (after `[`, first element expected). -/
def parseElems : Nat → List Char → List JVal → Option (JVal × List Char)
  | 0, _, _ => none
  | fuel + 1, cs, acc =>
    match parseJ fuel cs with
    | none => none
    | some (v, rem) =>
      match skipWs rem with
      | ',' :: rem' => parseElems fuel rem' (acc ++ [v])
      | ']' :: rem' => some (.arr (acc ++ [v]), rem')
      | _ => none
end

/-- `json.loads`: parse one value and require only whitespace after it. -/
def jsonLoads (s : String) : Option JVal :=
  match parseJ (s.data.length + 1) s.data with
  | some (v, rem) => if skipWs rem = [] then some v else none
  | none => none

/-! ### The component factory (`brockassemble/component.py`)

Only the factory functions reached from the entity code under scrutiny are
embedded.  Numeric parameters typed `float` in the source are carried as
`JVal` (the callers pass them straight into `json_obj`). -/

/-- `component.Component`: a type id plus a JSON body.  A constructor-time
`priority` is never passed by the embedded call sites. -/
structure Component where
  comp_type : String
  json_obj : List (String × JVal)
deriving Repr

/-- `Component.get_id`. -/
def Component.get_id (c : Component) : String :=
  "minecraft:" ++ c.comp_type

/-- `component_skin_id`. -/
def component_skin_id (skin_id : Int) : Component :=
  ⟨"skin_id", [("value", .i skin_id)]⟩

/-- `component_timer`. -/
def component_timer (length : JVal) (event : String) : Component :=
  ⟨"timer",
    [("randomInterval", .b false), ("time", length),
     ("time_down_event", .obj [("event", .s event)])]⟩

/-- `component_health`. -/
def component_health (max_hp : Int) : Component :=
  ⟨"health", [("max", .i max_hp), ("value", .i max_hp)]⟩

/-- `component_attack` as called by the entity code: a plain damage value with
`effect_id` and `effect_duration` both `None` (so the guard raising
`MissingParameterError` is not triggered and both fields serialize as null). -/
def component_attack (dmg : Int) : Component :=
  ⟨"attack",
    [("damage", .i dmg), ("effect_name", .null), ("effect_duration", .null)]⟩

/-- `component_movement`. -/
def component_movement (speed : JVal) : Component :=
  ⟨"movement", [("value", speed)]⟩

/-- `component_no_dmg`. -/
def component_no_dmg : Component :=
  ⟨"damage_sensor",
    [("triggers",
      .obj [("on_damage", .obj [("filters", .obj [])]),
            ("deals_damage", .b false)])]⟩

/-- `component_scale`. -/
def component_scale (scale : JVal) : Component :=
  ⟨"scale", [("value", scale)]⟩

/-- `component_collision_box`. -/
def component_collision_box (width height : JVal) : Component :=
  ⟨"collision_box", [("width", width), ("height", height)]⟩

/-! ### Events (`entity.EventRandomizer`, `entity.Event`) -/

/-- `entity.EventRandomizer`. -/
structure EventRandomizer where
  weight : Int := 1
  add_groups : Option (List String) := none
  remove_groups : Option (List String) := none
  set_properties : Option (List (String × JVal)) := none
deriving Repr

/-- `EventRandomizer.get_json`. -/
def EventRandomizer.get_json (r : EventRandomizer) : JVal :=
  let o : List (String × JVal) := [("weight", .i r.weight)]
  let o := match r.add_groups with
    | some gs => o ++ [("add", .obj [("component_groups", .arr (gs.map .s))])]
    | none => o
  let o := match r.remove_groups with
    | some gs => o ++ [("remove", .obj [("component_groups", .arr (gs.map .s))])]
    | none => o
  let o := match r.set_properties with
    | some sp => o ++ [("set_property", .obj sp)]
    | none => o
  .obj o

/-- The non-recursive fields of `entity.Event`.  `remove_groups_attr` models
the *distinct* instance attribute `remove_groups` (no underscore) that
`Entity.add_loop_state` creates by plain assignment on its `last_state` branch;
nothing in the source ever reads it — in particular `Event.get_json` reads only
`_remove_groups` (here `remove_groups`). -/
structure EventData where
  identifier : String
  namespace_ : Option String := none
  add_groups : List String := []
  remove_groups : List String := []
  randomizers : List EventRandomizer := []
  set_properties : List (String × JVal) := []
  next_event : Option String := none
  remove_groups_attr : Option (List String) := none
deriving Repr

/-- `entity.Event`; recursive because an event holds sequential sub-events. -/
inductive EventM : Type where
  | mk (core : EventData) (sequential_events : List EventM) : EventM
deriving Repr

def EventM.core : EventM → EventData
  | .mk c _ => c

def EventM.sequential_events : EventM → List EventM
  | .mk _ s => s

/-- Rebuild an event with its core fields transformed. -/
def EventM.modifyCore (f : EventData → EventData) : EventM → EventM
  | .mk c s => .mk (f c) s

/-- `Event.get_id`. -/
def EventM.get_id (e : EventM) : String :=
  match e.core.namespace_ with
  | some ns => ns ++ ":" ++ e.core.identifier
  | none => e.core.identifier

/-- The `set_property` sub-object: Python copies `_set_properties` key by key
into a fresh dict. -/
def setPropsObj (sp : List (String × JVal)) : List (String × JVal) :=
  sp.foldl (fun o kv => jput o kv.1 kv.2) []

/-- `Event.get_json`: randomizers force a `sequence` wrapper, sequential
sub-events re-wrap whatever was built so far, and a `trigger` entry is added
last when a next event is set. -/
def EventM.get_json : EventM → JVal
  | .mk c seq =>
    let o : List (String × JVal) :=
      if c.randomizers.length > 0 then
        let sl : List JVal :=
          (if c.add_groups.length > 0 then
            [.obj [("add", .obj [("component_groups", .arr (c.add_groups.map .s))])]]
           else []) ++
          (if c.remove_groups.length > 0 then
            [.obj [("remove", .obj [("component_groups", .arr (c.remove_groups.map .s))])]]
           else []) ++
          (if c.set_properties.length > 0 then
            [.obj [("set_property", .obj (setPropsObj c.set_properties))]]
           else []) ++
          [.obj [("randomize", .arr (c.randomizers.map EventRandomizer.get_json))]]
        [("sequence", .arr sl)]
      else
        (if c.add_groups.length > 0 then
          [("add", .obj [("component_groups", .arr (c.add_groups.map .s))])]
         else []) ++
        (if c.remove_groups.length > 0 then
          [("remove", .obj [("component_groups", .arr (c.remove_groups.map .s))])]
         else []) ++
        (if c.set_properties.length > 0 then
          [("set_property", .obj (setPropsObj c.set_properties))]
         else [])
    let o :=
      if seq.length > 0 then
        [("sequence", .arr (.obj o :: seq.attach.map (fun e => e.1.get_json)))]
      else o
    match c.next_event with
    | some t => .obj (jput o "trigger" (.obj [("event", .s t), ("target", .s "self")]))
    | none => .obj o
termination_by e => sizeOf e
decreasing_by
  simp_wf
  have := List.sizeOf_lt_of_mem e.2
  omega

/-! ### Component groups (`entity.ComponentGroup`) -/

/-- `entity.ComponentGroup`.  `add_loop_state` constructs it with only an
identifier and a `skin_id`, so of the constructor's optional component
parameters only that call shape is embedded (`ComponentGroup.mkLoop`). -/
structure ComponentGroup where
  identifier : String
  namespace_ : Option String := none
  components : List Component := []
deriving Repr

/-- `ComponentGroup.get_id`. -/
def ComponentGroup.get_id (g : ComponentGroup) : String :=
  match g.namespace_ with
  | some ns => ns ++ ":" ++ g.identifier
  | none => g.identifier

/-- `ComponentGroup(identifier, skin_id=n)` as called by `add_loop_state`. -/
def ComponentGroup.mkLoop (identifier : String) (skin_id : Int) : ComponentGroup :=
  ⟨identifier, none, [component_skin_id skin_id]⟩

/-- `ComponentGroup.add_component`. -/
def ComponentGroup.add_component (g : ComponentGroup) (c : Component) : ComponentGroup :=
  { g with components := g.components ++ [c] }

/-- `ComponentGroup.add_component_list`. -/
def ComponentGroup.add_component_list (g : ComponentGroup) (cs : List Component) :
    ComponentGroup :=
  { g with components := g.components ++ cs }

/-- `ComponentGroup.get_json`. -/
def ComponentGroup.get_json (g : ComponentGroup) : JVal :=
  .obj (g.components.foldl (fun o c => jput o c.get_id (.obj c.json_obj)) [])

/-! ### Animation-controller states (`entity.AncoState`) -/

/-- `entity.AncoState`: transitions are (target-state, condition) pairs;
`transition_time` is a float carried as its `repr` text. -/
structure AncoState where
  identifier : String
  transitions : List (String × String) := []
  on_entry : List String := []
  on_exit : List String := []
  animations : List String := []
  transition_time : Option JVal := none
deriving Repr

/-- `AncoState.add_transition`. -/
def AncoState.add_transition (st : AncoState) (state_id condition_string : String) :
    AncoState :=
  { st with transitions := st.transitions ++ [(state_id, condition_string)] }

/-- `AncoState.add_entry_command`. -/
def AncoState.add_entry_command (st : AncoState) (cmd : String) : AncoState :=
  { st with on_entry := st.on_entry ++ [cmd] }

/-- `AncoState.add_exit_command`. -/
def AncoState.add_exit_command (st : AncoState) (cmd : String) : AncoState :=
  { st with on_exit := st.on_exit ++ [cmd] }

/-- `AncoState.add_animation`. -/
def AncoState.add_animation (st : AncoState) (anim : String) : AncoState :=
  { st with animations := st.animations ++ [anim] }

/-- `AncoState.get_json`: every transition serializes as a one-entry object
keyed by the *target state id* whose value is the condition string. -/
def AncoState.get_json (st : AncoState) : JVal :=
  let o : List (String × JVal) := []
  let o := if st.transitions.length > 0 then
      o ++ [("transitions", .arr (st.transitions.map (fun t => .obj [(t.1, .s t.2)])))]
    else o
  let o := if st.on_entry.length > 0 then o ++ [("on_entry", .arr (st.on_entry.map .s))] else o
  let o := if st.on_exit.length > 0 then o ++ [("on_exit", .arr (st.on_exit.map .s))] else o
  let o := if st.animations.length > 0 then
      o ++ [("animations", .arr (st.animations.map .s))]
    else o
  let o := match st.transition_time with
    | some t => o ++ [("blend_transition", t)]
    | none => o
  .obj o

/-! ### String variables (`replace_obj_string_variables`)

The replacement walks a JSON tree; each dict value / list element is first run
through the variable substitutions (a non-string replacement value only
applies on exact match — a partial match raises `TypeError`, modelled as
`none`), and the — possibly substituted — result is recursed into when it is a
dict or a list.  Python's recursion limit is modelled by fuel. -/

/-- Whether `pat` is a prefix of some suffix of `s`. -/
def infixAt (pat : List Char) : List Char → Bool
  | [] => pat.isPrefixOf []
  | c :: rest => pat.isPrefixOf (c :: rest) || infixAt pat rest

/-- Whether `pat` occurs as a substring (Python `in`). -/
def strContains (s pat : String) : Bool :=
  infixAt pat.data s.data

/-- One dict value / list element run through all string variables, in
order. -/
def svAtom (sv : List (String × JVal)) (v : JVal) : Option JVal :=
  sv.foldlM
    (fun v kv =>
      let var := "%" ++ kv.1
      match v with
      | .s str =>
        if str = var then some kv.2
        else if strContains str var then
          match kv.2 with
          | .s rep => some (.s (pyReplace str var rep))
          | _ => none
        else some v
      | other => some other)
    v

mutual
/-- `replace_obj_string_variables`. -/
def svObj (sv : List (String × JVal)) : Nat → List (String × JVal) →
    Option (List (String × JVal))
  | 0, _ => none
  | fuel + 1, kvs =>
    kvs.mapM (fun kv => do
      let v' ← svAtom sv kv.2
      match v' with
      | .obj kvs' => do
        let kvs'' ← svObj sv fuel kvs'
        pure (kv.1, JVal.obj kvs'')
      | .arr vs => do
        let vs' ← svList sv fuel vs
        pure (kv.1, JVal.arr vs')
      | other => pure (kv.1, other))

/-- `_replace_list_string_variables`. -/
def svList (sv : List (String × JVal)) : Nat → List JVal → Option (List JVal)
  | 0, _ => none
  | fuel + 1, vs =>
    vs.mapM (fun v => do
      let v' ← svAtom sv v
      match v' with
      | .obj kvs' => do
        let kvs'' ← svObj sv fuel kvs'
        pure (JVal.obj kvs'')
      | .arr vs' => do
        let vs'' ← svList sv fuel vs'
        pure (JVal.arr vs'')
      | other => pure other)
end

/-- Fuel standing in for Python's recursion limit. -/
def svFuel : Nat := 1000

/-! ### Animation controllers (`entity.AnimationController`) -/

/-- `entity.AnimationController`.  `initial_state` is an `Option` because
`Entity.create_banco`/`create_ranco` pass their own `initial_state=None`
default straight through, overriding the class default `'init'`. -/
structure AnimationController where
  identifier : String
  states : List AncoState := []
  string_variables : Option (List (String × JVal)) := none
  initial_state : Option String := some "init"
deriving Repr

/-- `AnimationController.add_state`. -/
def AnimationController.add_state (a : AnimationController) (st : AncoState) :
    AnimationController :=
  { a with states := a.states ++ [st] }

/-- `AnimationController.has_state`. -/
def AnimationController.has_state (a : AnimationController) (state_name : String) : Bool :=
  a.states.any (fun st => st.identifier = state_name)

/-- `AnimationController.get_state` (first match). -/
def AnimationController.get_state (a : AnimationController) (state_name : String) :
    Option AncoState :=
  a.states.find? (fun st => st.identifier = state_name)

/-- Rewrite the first state with the given id in a state list. -/
def modifyStates (state_name : String) (f : AncoState → AncoState) :
    List AncoState → List AncoState
  | [] => []
  | st :: rest =>
    if st.identifier = state_name then f st :: rest
    else st :: modifyStates state_name f rest

/-- Mutation through `get_state`: rewrite the first state with the given id
(the source calls a method on the returned object, never reaching this point
unless the state exists). -/
def AnimationController.modifyState (a : AnimationController) (state_name : String)
    (f : AncoState → AncoState) : AnimationController :=
  { a with states := modifyStates state_name f a.states }

def BANCO_FORMAT_VERSION : String := "1.10.0"
def BP_ENTITY_FORMAT_VERSION : String := "1.16.0"

/-- `AnimationController.get_json`; `Option` because the string-variable
replacement can raise. -/
def AnimationController.get_json (a : AnimationController) : Option JVal :=
  let banco_states := a.states.foldl (fun o st => jput o st.identifier st.get_json) []
  let banco : List (String × JVal) :=
    [("initial_state", match a.initial_state with | some s => .s s | none => .null),
     ("states", .obj banco_states)]
  let o : List (String × JVal) :=
    [("format_version", .s BANCO_FORMAT_VERSION),
     ("animation_controllers", .obj [(a.identifier, .obj banco)])]
  match a.string_variables with
  | some sv => (svObj sv svFuel o).map .obj
  | none => some (.obj o)

/-! ### Entity properties (`entity.EntityProperty` and subclasses) -/

/-- `entity.EntityProperty` and its three subclasses, one variant each.  The
base variant keeps the parent class's `None`-valued `_values`/`_data_type`
(serialized as JSON null). -/
inductive EntityPropertyM : Type where
  | base (identifier : String) (default : JVal) (client_sync : Bool) : EntityPropertyM
  | range (identifier : String) (min max : Int) (default : JVal)
      (client_sync : Bool) : EntityPropertyM
  | bool_ (identifier : String) (default : JVal) (client_sync : Bool) : EntityPropertyM
  | enum (identifier : String) (values : List JVal) (default : JVal)
      (client_sync : Bool) : EntityPropertyM
deriving Repr

def EntityPropertyM.identifier : EntityPropertyM → String
  | .base id _ _ => id
  | .range id _ _ _ _ => id
  | .bool_ id _ _ => id
  | .enum id _ _ _ => id

/-- `client_sync` is emitted only when it is not `False`. -/
def clientSyncField (cs : Bool) : List (String × JVal) :=
  if cs then [("client_sync", .b true)] else []

/-- `EntityProperty.get_json` (with the `PropertyRange` override). -/
def EntityPropertyM.get_json : EntityPropertyM → JVal
  | .base _ d cs =>
    .obj ([("values", .null), ("default", d), ("type", .null)] ++ clientSyncField cs)
  | .range _ mn mx d cs =>
    .obj ([("range", .arr [.i mn, .i mx]), ("default", d), ("type", .s "int")] ++
      clientSyncField cs)
  | .bool_ _ d cs =>
    .obj ([("values", .arr [.b false, .b true]), ("default", d), ("type", .s "bool")] ++
      clientSyncField cs)
  | .enum _ vs d cs =>
    .obj ([("values", .arr vs), ("default", d), ("type", .s "enum")] ++
      clientSyncField cs)

/-! ### The behavior file (`entity.Behaviors`) -/

/-- An entry of `Behaviors._animations`: `Behaviors.get_json` consults only the
animation's `identifier`, so only that field is embedded. -/
structure AnimationRef where
  identifier : String
deriving Repr

/-- The branch registry `Behaviors._lstate_names`: key ↦ (element 0: the true
state id once assigned, else `None`; remaining elements: connecting state
ids). -/
abbrev LstateNames := List (String × (Option String × List String))

/-- `entity.Behaviors` (the fields `get_json` reads or writes). -/
structure Behaviors where
  identifier : String
  is_spawnable : Bool := true
  is_summonable : Bool := true
  is_experimental : Bool := false
  bancos : List String := []
  animations : List AnimationRef := []
  components : List Component := []
  component_groups : List ComponentGroup := []
  events : List EventM := []
  spawn_groups : List String := []
  spawn_randomizers : List EventRandomizer := []
  spawn_sequential_events : List EventM := []
  properties : List EntityPropertyM := []
  spawn_properties : List (String × JVal) := []
  lstate_names : LstateNames := []
  string_variables : Option (List (String × JVal)) := none
  runtime_identifier : Option String := none
deriving Repr

/-- `Behaviors.get_event` (first event whose full id matches). -/
def Behaviors.get_event (s : Behaviors) (event_id : String) : Option EventM :=
  s.events.find? (fun e => e.get_id = event_id)

/-- Rewrite the first event with the given full id (the object
`Behaviors.get_event` returns is mutated in place in the source). -/
def updateFirstEvent (evs : List EventM) (event_id : String) (f : EventM → EventM) :
    List EventM :=
  match evs with
  | [] => []
  | e :: rest =>
    if e.get_id = event_id then f e :: rest else e :: updateFirstEvent rest event_id f

/-- The mutations `Behaviors.get_json` applies to the spawn event:
`add_add_groups`, `add_randomizers`, `add_sequential_events`, then plain
assignment of `_set_properties`. -/
def applySpawnData (s : Behaviors) (e : EventM) : EventM :=
  match e with
  | .mk c seq =>
    .mk { c with add_groups := c.add_groups ++ s.spawn_groups,
                 randomizers := c.randomizers ++ s.spawn_randomizers,
                 set_properties := s.spawn_properties }
      (seq ++ s.spawn_sequential_events)

/-- The spawn-event block of `Behaviors.get_json`: when any spawn data exists,
find or create the `minecraft:entity_spawned` event and merge the data in. -/
def spawnEvents (s : Behaviors) : List EventM :=
  if s.spawn_groups.length > 0 ∨ s.spawn_randomizers.length > 0 ∨
      s.spawn_sequential_events.length > 0 ∨ s.spawn_properties.length > 0 then
    if (s.get_event "minecraft:entity_spawned").isSome then
      updateFirstEvent s.events "minecraft:entity_spawned" (applySpawnData s)
    else
      s.events ++ [applySpawnData s (.mk { identifier := "entity_spawned",
                                           namespace_ := some "minecraft" } [])]
  else s.events

def spawnPass (s : Behaviors) : Behaviors :=
  { s with events := spawnEvents s }

/-- `Event.add_remove_group` guarded by the `not in` check of the branch
resolution loop. -/
def addRemoveIfAbsent (e : EventM) (src : String) : EventM :=
  if src ∈ e.core.remove_groups then e
  else e.modifyCore (fun c => { c with remove_groups := c.remove_groups ++ [src] })

/-- All of one registry entry's connecting states folded into an event. -/
def patchEvent (srcs : List String) (e : EventM) : EventM :=
  srcs.foldl addRemoveIfAbsent e

/-- `get_event(v[0])` where `v[0]` may be `None` (no event id is `None`, so the
scan finds nothing in that case). -/
def getEventTarget (evs : List EventM) : Option String → Option EventM
  | none => none
  | some t => evs.find? (fun e => e.get_id = t)

/-- One registry entry of the structural branch-resolution patch: append each
connecting state's id to the *target* event's remove-list unless present. -/
def patchEntry (evs : List EventM) (en : String × (Option String × List String)) :
    List EventM :=
  match en.2.1 with
  | none => evs
  | some t => updateFirstEvent evs t (patchEvent en.2.2)

/-- The whole structural patch (`# Remove component groups from branching
connections`); iterating the dict in insertion order, each entry seeing the
previous entries' mutations. -/
def patchPass (s : Behaviors) : Behaviors :=
  { s with events := s.lstate_names.foldl patchEntry s.events }

/-- The `description` section plus the `minecraft:entity` body, exactly in the
source's key-insertion order. -/
def buildObj (s : Behaviors) : JVal :=
  let desc : List (String × JVal) := [("identifier", .s s.identifier)]
  let desc := match s.runtime_identifier with
    | some r => desc ++ [("runtime_identifier", .s r)]
    | none => desc
  let desc := desc ++
    [("is_spawnable", .b s.is_spawnable),
     ("is_summonable", .b s.is_summonable),
     ("is_experimental", .b s.is_experimental)]
  let anim_dict : List (String × JVal) :=
    (s.bancos.enum.map (fun bi => ("banco_" ++ toString bi.1, JVal.s bi.2)))
  let desc := if s.bancos.length > 0 then
      desc ++ [("scripts", .obj [("animate",
        .arr (s.bancos.enum.map (fun bi => .obj [("banco_" ++ toString bi.1, .s "1")])))])]
    else desc
  let anim_dict := s.animations.foldl
    (fun d a => jput d a.identifier (.s a.identifier)) anim_dict
  let desc := if anim_dict.length > 0 then desc ++ [("animations", .obj anim_dict)] else desc
  let desc := if s.properties.length > 0 then
      desc ++ [("properties", .obj (s.properties.foldl
        (fun o p => jput o ("property:" ++ p.identifier) p.get_json) []))]
    else desc
  let components : List (String × JVal) :=
    s.components.foldl (fun o c => jput o ("minecraft:" ++ c.comp_type) (.obj c.json_obj)) []
  let entity_obj : List (String × JVal) :=
    [("description", .obj desc), ("components", .obj components)]
  let entity_obj := if s.component_groups.length > 0 then
      entity_obj ++ [("component_groups", .obj (s.component_groups.foldl
        (fun o g => jput o g.get_id g.get_json) []))]
    else entity_obj
  let entity_obj := if s.events.length > 0 then
      entity_obj ++ [("events", .obj (s.events.foldl
        (fun o e => jput o e.get_id e.get_json) []))]
    else entity_obj
  .obj [("format_version", .s BP_ENTITY_FORMAT_VERSION),
        ("minecraft:entity", .obj entity_obj)]

/-- One registry entry of the textual pass: replace the branch name by its
assigned state id, or leave the text untouched while element 0 is `None`. -/
def replOne (str : String) (en : String × (Option String × List String)) : String :=
  match en.2.1 with
  | some t => pyReplace str en.1 t
  | none => str

/-- The textual branch-name resolution: serialize, replace every *assigned*
branch name by its state id (entries whose element 0 is still `None` are
skipped), re-parse.  Performed only when the registry is non-empty. -/
def textualStage (names : LstateNames) (doc : JVal) : Option JVal :=
  if names.length > 0 then
    jsonLoads (names.foldl replOne (dumpJ doc))
  else some doc

/-- The string-variable stage: `replace_obj_string_variables` expects a dict
(the parse of a mangled document that is not a dict raises, modelled as
`none`). -/
def svStage (sv : Option (List (String × JVal))) (doc : JVal) : Option JVal :=
  match sv with
  | none => some doc
  | some vars =>
    match doc with
    | .obj kvs => (svObj vars svFuel kvs).map .obj
    | _ => none

/-- `Behaviors.get_json`: the document, paired with the post-call state of the
object (the spawn block and the structural patch mutate `self`).  `none`
models an uncaught Python exception. -/
def Behaviors.get_json (s : Behaviors) : Option (JVal × Behaviors) :=
  let s' := patchPass (spawnPass s)
  match textualStage s'.lstate_names (buildObj s') with
  | none => none
  | some doc =>
    match svStage s'.string_variables doc with
    | none => none
    | some doc' => some (doc', s')

/-! ### The entity builder (`entity.Entity`) and `add_loop_state` -/

/-- `entity.Entity` (the fields the loop-state builder touches).  The optional
`EntityGraphics` object only receives aliases of the same controller objects
(plus warning prints), so it is not modelled. -/
structure Entity where
  namespace_ : String
  name : String
  bancos : List AnimationController := []
  current_state : Int := 0
  rancos : List AnimationController := []
  identifier : String
  egg_name : String
  string_variables : Option (List (String × JVal)) := none
  behaviors : Behaviors
deriving Repr

/-- `Entity.get_id`. -/
def Entity.get_id (e : Entity) : String :=
  e.namespace_ ++ ":" ++ e.identifier

/-- `Entity.__init__` with the constructor's default arguments (no explicit
id/egg name/stats/graphics, `collision_x = collision_y = 0`,
`has_physics=True`, `despawnable=False`). -/
def mkEntity (namespace_ name : String) : Entity :=
  let identifier := (name.toLower).replace " " "_"
  { namespace_ := namespace_
    name := name
    identifier := identifier
    egg_name := "Spawn " ++ name
    behaviors :=
      { identifier := namespace_ ++ ":" ++ identifier
        components := [component_collision_box (.i 0) (.i 0), ⟨"physics", []⟩] } }

/-- `Entity.create_banco`: build a fresh controller (passing this method's own
`initial_state=None` default through), append it, register its id with the
behaviors, and return its index. -/
def Entity.create_banco (e : Entity) (banco_name : String)
    (initial_state : Option String := none) : Entity × Nat :=
  let banco : AnimationController :=
    { identifier := "controller.animation." ++ e.identifier ++ "_" ++ banco_name
      initial_state := initial_state
      string_variables := e.string_variables }
  (⟨e.namespace_, e.name, e.bancos ++ [banco], e.current_state, e.rancos,
    e.identifier, e.egg_name, e.string_variables,
    { e.behaviors with bancos := e.behaviors.bancos ++ [banco.identifier] }⟩,
   e.bancos.length)

/-- `Entity.create_ranco` (the graphics object receives only an alias of the
same controller). -/
def Entity.create_ranco (e : Entity) (ranco_name : String)
    (initial_state : Option String := none) : Entity × Nat :=
  let ranco : AnimationController :=
    { identifier := "controller.animation." ++ e.identifier ++ "_" ++ ranco_name
      initial_state := initial_state
      string_variables := e.string_variables }
  ({ e with rancos := e.rancos ++ [ranco] }, e.rancos.length)

/-- `Entity.current_lstate`. -/
def Entity.current_lstate (e : Entity) : String :=
  "state_" ++ toString e.current_state

/-- `Entity.next_lstate`. -/
def Entity.next_lstate (e : Entity) : String :=
  "state_" ++ toString (e.current_state + 1)

/-- `Entity.prev_lstate`. -/
def Entity.prev_lstate (e : Entity) : String :=
  "state_" ++ toString (e.current_state - 1)

/-- The parameters of `Entity.add_loop_state`, with the source's defaults.
`banco_id`/`ranco_id` are embedded as `Nat` (the negative-index wraparound of
Python list indexing is outside the modelled call shapes); floats are carried
as `JVal` repr text. -/
structure LoopParams where
  banco_id : Nat := 0
  ranco_id : Nat := 0
  components : Option (List Component) := none
  entry_commands : Option (List String) := none
  exit_commands : Option (List String) := none
  timer_len : Option JVal := none
  last_state : Bool := false
  name : Option String := none
  connection_list : Option (List String) := none
  timer_state : Option String := none
  hp : Option Int := none
  attack : Option Int := none
  move_speed : Option JVal := none
  no_damage : Bool := false
  animation : Option String := none
  end_anim_with_state : Bool := true
  anim_blend_time : JVal := .f "0.2"
  set_properties : Option (List (String × JVal)) := none
deriving Repr

/-- The local rebinding of `connection_list`: inside the timer block a branch
target appends itself to the connection list, creating the list if the caller
passed none. -/
def effectiveConnList (p : LoopParams) : Option (List String) :=
  match p.timer_len, p.timer_state with
  | some _, some ts =>
    match p.connection_list with
    | none => some [ts]
    | some cl => some (cl ++ [ts])
  | _, _ => p.connection_list

/-- The stat-override and extra-component additions at the top of
`add_loop_state` (everything after the timer handling). -/
def statAdds (p : LoopParams) (group : ComponentGroup) : ComponentGroup :=
  let group := match p.hp with
    | some hp => group.add_component (component_health hp)
    | none => group
  let group := match p.attack with
    | some atk => group.add_component (component_attack atk)
    | none => group
  let group := match p.move_speed with
    | some ms => group.add_component (component_movement ms)
    | none => group
  let group := if p.no_damage then group.add_component component_no_dmg else group
  match p.components with
  | some cs => group.add_component_list cs
  | none => group

/-- The component group built at the top of `add_loop_state`. -/
def loopGroup (p : LoopParams) (e : Entity) : ComponentGroup :=
  let group := ComponentGroup.mkLoop e.current_lstate e.current_state
  let group := match p.timer_len with
    | some tl =>
      match p.timer_state with
      | some ts => group.add_component (component_timer tl ts)
      | none =>
        if ¬ p.last_state then group.add_component (component_timer tl e.next_lstate)
        else group.add_component (component_timer tl "state_0")
    | none => group
  statAdds p group

/-- The hub-and-spoke wiring applied to the behavior controller: append the
spoke state for the current loop state, point the controller's initial state
at `init`, create the `init` hub state if missing, and add the hub's entry
transition.  (`"state_" ++ toString cs` is `current_lstate`.) -/
def bancoWire (p : LoopParams) (cs : Int) (b : AnimationController) : AnimationController :=
  let banco_state : AncoState :=
    { identifier := "state_" ++ toString cs
      transitions := [("init", "query.skin_id!=" ++ toString cs)]
      on_entry := p.entry_commands.getD []
      on_exit := p.exit_commands.getD [] }
  let b := b.add_state banco_state
  let b := { b with initial_state := some "init" }
  let b := if ¬ b.has_state "init" then b.add_state { identifier := "init" } else b
  b.modifyState "init"
    (fun st => st.add_transition ("state_" ++ toString cs) ("query.skin_id==" ++ toString cs))

/-- The banco block of `add_loop_state`; `none` models the `IndexError` of
`self._bancos[banco_id]`. -/
def bancoBlock (p : LoopParams) (e : Entity) : Option Entity :=
  if p.entry_commands.isSome ∨ p.exit_commands.isSome then
    if h : p.banco_id < e.bancos.length then
      let b := bancoWire p e.current_state (e.bancos.get ⟨p.banco_id, h⟩)
      some { e with bancos := e.bancos.set p.banco_id b }
    else none
  else some e

/-- The identical hub-and-spoke wiring on the render side, with the spoke's
exit condition depending on `end_anim_with_state`. -/
def rancoWire (p : LoopParams) (cs : Int) (anim : String)
    (r : AnimationController) : AnimationController :=
  let ranco_state : AncoState :=
    { identifier := "state_" ++ toString cs
      transitions :=
        if p.end_anim_with_state then
          [("init", "query.skin_id!=" ++ toString cs)]
        else
          [("init", "query.all_animations_finished")]
      animations := [anim]
      transition_time := some p.anim_blend_time }
  let r := r.add_state ranco_state
  let r := { r with initial_state := some "init" }
  let r := if ¬ r.has_state "init" then r.add_state { identifier := "init" } else r
  r.modifyState "init"
    (fun st => st.add_transition ("state_" ++ toString cs) ("query.skin_id==" ++ toString cs))

/-- The ranco block of `add_loop_state`. -/
def rancoBlock (p : LoopParams) (e : Entity) : Option Entity :=
  match p.animation with
  | none => some e
  | some anim =>
    if h : p.ranco_id < e.rancos.length then
      let r := rancoWire p e.current_state anim (e.rancos.get ⟨p.ranco_id, h⟩)
      some { e with rancos := e.rancos.set p.ranco_id r }
    else none

/-- Python `dict.update`. -/
def dictUpdate (d upd : List (String × JVal)) : List (String × JVal) :=
  upd.foldl (fun d kv => jput d kv.1 kv.2) d

/-- `self.add_component_group(group)`. -/
def groupStep (p : LoopParams) (e : Entity) : Entity :=
  { e with behaviors :=
    { e.behaviors with component_groups := e.behaviors.component_groups ++ [loopGroup p e] } }

/-- The spawn-property staging of `add_loop_state` (takes effect only for
state 0 with property assignments given). -/
def spawnPropsVal (p : LoopParams) (e : Entity) : List (String × JVal) :=
  if e.current_state = 0 ∧ p.set_properties.isSome then
    dictUpdate e.behaviors.spawn_properties (p.set_properties.getD [])
  else e.behaviors.spawn_properties

/-- Staging spawn-time property defaults when this is state 0. -/
def spawnPropsStep (p : LoopParams) (e : Entity) : Entity :=
  { e with behaviors := { e.behaviors with spawn_properties := spawnPropsVal p e } }

/-- The event `add_loop_state` always creates: adds this state's group,
removes the previous state's group, carries the per-state property
assignments. -/
def loopEvent (p : LoopParams) (e : Entity) : EventM :=
  .mk { identifier := e.current_lstate
        add_groups := [e.current_lstate]
        remove_groups := [e.prev_lstate]
        set_properties := (p.set_properties.getD []) } []

/-- `self.add_event(event)`. -/
def eventStep (p : LoopParams) (e : Entity) : Entity :=
  { e with behaviors :=
    { e.behaviors with events := e.behaviors.events ++ [loopEvent p e] } }

/-- The `last_state` loop body: `i.remove_groups = [cur]` on every event whose
`identifier` is `state_0` — an assignment to a fresh attribute
`remove_groups`, not to the `_remove_groups` list that `Event.get_json`
serializes. -/
def markLast (cur : String) (evs : List EventM) : List EventM :=
  evs.map (fun ev =>
    if ev.core.identifier = "state_0" then
      ev.modifyCore (fun c => { c with remove_groups_attr := some [cur] })
    else ev)

/-- The event list after the `last_state` branch. -/
def lastEventsVal (p : LoopParams) (e : Entity) : List EventM :=
  if p.last_state then markLast e.current_lstate e.behaviors.events
  else e.behaviors.events

/-- The `last_state` branch of `add_loop_state`. -/
def lastStateStep (p : LoopParams) (e : Entity) : Entity :=
  { e with behaviors := { e.behaviors with events := lastEventsVal p e } }

/-- Registering this state's own branch name: set the registry entry's
element 0, creating the entry if the name is new. -/
def nameVal (p : LoopParams) (cur : String) (names : LstateNames) : LstateNames :=
  match p.name with
  | none => names
  | some nm =>
    if (names.find? (fun en => en.1 = nm)).isSome then
      names.map (fun en =>
        if en.1 = nm then (en.1, (some cur, en.2.2)) else en)
    else
      names ++ [(nm, (some cur, []))]

def nameStep (p : LoopParams) (e : Entity) : Entity :=
  { e with behaviors := { e.behaviors with
      lstate_names := nameVal p e.current_lstate e.behaviors.lstate_names } }

/-- `_lstate_names[i].append(current)`: the in-place append, applied to the
entry with key `i`. -/
def connUpd (i cur : String) (en : String × (Option String × List String)) :
    String × (Option String × List String) :=
  if en.1 = i then (en.1, (en.2.1, en.2.2 ++ [cur])) else en

/-- Appending one inbound connection under one branch name (creating a
pending `[None]` entry when the target has not been named yet). -/
def connOne (cur : String) (names : LstateNames) (i : String) : LstateNames :=
  let names :=
    if (names.find? (fun en => en.1 = i)).isSome then names
    else names ++ [(i, ((none : Option String), ([] : List String)))]
  names.map (connUpd i cur)

/-- Registering all inbound connections of the (possibly rebound) connection
list. -/
def connVal (connection_list : Option (List String)) (cur : String)
    (names : LstateNames) : LstateNames :=
  match connection_list with
  | none => names
  | some cl => cl.foldl (connOne cur) names

def connStep (connection_list : Option (List String)) (e : Entity) : Entity :=
  { e with behaviors := { e.behaviors with
      lstate_names := connVal connection_list e.current_lstate e.behaviors.lstate_names } }

/-- `Entity.add_loop_state`, step for step in source order: build and add the
component group (possibly rebinding the connection list), wire the two
controllers, stage spawn properties for state 0, create the state's event,
mark state 0 on `last_state` (an assignment to the *unread* attribute
`remove_groups`), register this state's branch name, register inbound
connections, and advance the counter. -/
def addLoopState (p : LoopParams) (e : Entity) : Option Entity :=
  let connection_list := effectiveConnList p
  match bancoBlock p (groupStep p e) with
  | none => none
  | some e =>
    match rancoBlock p e with
    | none => none
    | some e =>
      let e := connStep connection_list
        (nameStep p (lastStateStep p (eventStep p (spawnPropsStep p e))))
      some { e with current_state := e.current_state + 1 }

/-- A sequence of `add_loop_state` calls. -/
def runCalls (ps : List LoopParams) (e : Entity) : Option Entity :=
  ps.foldlM (fun e p => addLoopState p e) e

/-! ## Basic lemmas about the embedded operations -/

/-- The id of the loop state with (possibly negative) index `k`. -/
def stateId (k : Int) : String := "state_" ++ toString k

theorem current_lstate_eq (e : Entity) : e.current_lstate = stateId e.current_state := rfl

theorem prev_lstate_eq (e : Entity) : e.prev_lstate = stateId (e.current_state - 1) := rfl

theorem core_mk (c : EventData) (s : List EventM) : (EventM.mk c s).core = c := rfl

theorem seq_mk (c : EventData) (s : List EventM) :
    (EventM.mk c s).sequential_events = s := rfl

theorem modifyCore_core (f : EventData → EventData) (ev : EventM) :
    (ev.modifyCore f).core = f ev.core := by
  cases ev; rfl

theorem modifyCore_seq (f : EventData → EventData) (ev : EventM) :
    (ev.modifyCore f).sequential_events = ev.sequential_events := by
  cases ev; rfl

theorem bancoBlock_some (p : LoopParams) (e e' : Entity) (h : bancoBlock p e = some e') :
    e'.behaviors = e.behaviors ∧ e'.current_state = e.current_state ∧
    e'.rancos = e.rancos ∧ e'.bancos.length = e.bancos.length := by
  rw [bancoBlock] at h
  split at h
  · split at h
    · simp only [Option.some.injEq] at h
      subst h
      exact ⟨rfl, rfl, rfl, by simp⟩
    · exact absurd h (by simp)
  · simp only [Option.some.injEq] at h
    subst h
    exact ⟨rfl, rfl, rfl, rfl⟩

theorem rancoBlock_some (p : LoopParams) (e e' : Entity) (h : rancoBlock p e = some e') :
    e'.behaviors = e.behaviors ∧ e'.current_state = e.current_state ∧
    e'.bancos = e.bancos ∧ e'.rancos.length = e.rancos.length := by
  rw [rancoBlock] at h
  split at h
  · simp only [Option.some.injEq] at h
    subst h
    exact ⟨rfl, rfl, rfl, rfl⟩
  · split at h
    · simp only [Option.some.injEq] at h
      subst h
      exact ⟨rfl, rfl, rfl, by simp⟩
    · exact absurd h (by simp)

theorem groupStep_behaviors (p : LoopParams) (e : Entity) :
    (groupStep p e).behaviors =
      { e.behaviors with component_groups := e.behaviors.component_groups ++ [loopGroup p e] } :=
  rfl

theorem groupStep_current (p : LoopParams) (e : Entity) :
    (groupStep p e).current_state = e.current_state := rfl

theorem groupStep_bancos (p : LoopParams) (e : Entity) :
    (groupStep p e).bancos = e.bancos := rfl

theorem groupStep_rancos (p : LoopParams) (e : Entity) :
    (groupStep p e).rancos = e.rancos := rfl

theorem spawnPropsStep_current (p : LoopParams) (e : Entity) :
    (spawnPropsStep p e).current_state = e.current_state := rfl

theorem spawnPropsStep_bancos (p : LoopParams) (e : Entity) :
    (spawnPropsStep p e).bancos = e.bancos := rfl

theorem spawnPropsStep_rancos (p : LoopParams) (e : Entity) :
    (spawnPropsStep p e).rancos = e.rancos := rfl

theorem spawnPropsStep_events (p : LoopParams) (e : Entity) :
    (spawnPropsStep p e).behaviors.events = e.behaviors.events := rfl

theorem spawnPropsStep_lnames (p : LoopParams) (e : Entity) :
    (spawnPropsStep p e).behaviors.lstate_names = e.behaviors.lstate_names := rfl

theorem spawnPropsStep_groups (p : LoopParams) (e : Entity) :
    (spawnPropsStep p e).behaviors.component_groups = e.behaviors.component_groups := rfl

theorem eventStep_current (p : LoopParams) (e : Entity) :
    (eventStep p e).current_state = e.current_state := rfl

theorem eventStep_bancos (p : LoopParams) (e : Entity) :
    (eventStep p e).bancos = e.bancos := rfl

theorem eventStep_rancos (p : LoopParams) (e : Entity) :
    (eventStep p e).rancos = e.rancos := rfl

theorem eventStep_events (p : LoopParams) (e : Entity) :
    (eventStep p e).behaviors.events = e.behaviors.events ++ [loopEvent p e] := rfl

theorem eventStep_lnames (p : LoopParams) (e : Entity) :
    (eventStep p e).behaviors.lstate_names = e.behaviors.lstate_names := rfl

theorem eventStep_groups (p : LoopParams) (e : Entity) :
    (eventStep p e).behaviors.component_groups = e.behaviors.component_groups := rfl

theorem lastStateStep_current (p : LoopParams) (e : Entity) :
    (lastStateStep p e).current_state = e.current_state := rfl

theorem lastStateStep_bancos (p : LoopParams) (e : Entity) :
    (lastStateStep p e).bancos = e.bancos := rfl

theorem lastStateStep_rancos (p : LoopParams) (e : Entity) :
    (lastStateStep p e).rancos = e.rancos := rfl

theorem lastStateStep_events (p : LoopParams) (e : Entity) :
    (lastStateStep p e).behaviors.events =
      if p.last_state then markLast e.current_lstate e.behaviors.events
      else e.behaviors.events := rfl

theorem lastStateStep_lnames (p : LoopParams) (e : Entity) :
    (lastStateStep p e).behaviors.lstate_names = e.behaviors.lstate_names := rfl

theorem lastStateStep_groups (p : LoopParams) (e : Entity) :
    (lastStateStep p e).behaviors.component_groups = e.behaviors.component_groups := rfl

theorem nameStep_current (p : LoopParams) (e : Entity) :
    (nameStep p e).current_state = e.current_state := rfl

theorem nameStep_bancos (p : LoopParams) (e : Entity) :
    (nameStep p e).bancos = e.bancos := rfl

theorem nameStep_rancos (p : LoopParams) (e : Entity) :
    (nameStep p e).rancos = e.rancos := rfl

theorem nameStep_events (p : LoopParams) (e : Entity) :
    (nameStep p e).behaviors.events = e.behaviors.events := rfl

theorem nameStep_groups (p : LoopParams) (e : Entity) :
    (nameStep p e).behaviors.component_groups = e.behaviors.component_groups := rfl

theorem connStep_current (cl : Option (List String)) (e : Entity) :
    (connStep cl e).current_state = e.current_state := rfl

theorem connStep_bancos (cl : Option (List String)) (e : Entity) :
    (connStep cl e).bancos = e.bancos := rfl

theorem connStep_rancos (cl : Option (List String)) (e : Entity) :
    (connStep cl e).rancos = e.rancos := rfl

theorem connStep_events (cl : Option (List String)) (e : Entity) :
    (connStep cl e).behaviors.events = e.behaviors.events := rfl

theorem connStep_groups (cl : Option (List String)) (e : Entity) :
    (connStep cl e).behaviors.component_groups = e.behaviors.component_groups := rfl

/-- `loopEvent` reads the entity only through its state counter. -/
theorem loopEvent_congr (p : LoopParams) (e1 e2 : Entity)
    (h : e1.current_state = e2.current_state) : loopEvent p e1 = loopEvent p e2 := by
  simp [loopEvent, Entity.current_lstate, Entity.prev_lstate, h]

/-- Marking state 0 changes neither identifiers nor remove-lists. -/
theorem markLast_view (cur : String) (evs : List EventM) :
    (markLast cur evs).map (fun ev => (ev.core.identifier, ev.core.remove_groups)) =
      evs.map (fun ev => (ev.core.identifier, ev.core.remove_groups)) := by
  induction evs with
  | nil => rfl
  | cons ev evs ih =>
    simp only [markLast, List.map_cons] at ih ⊢
    rw [ih]
    split <;> simp [modifyCore_core]

/-- What one successful `add_loop_state` call does to the state counter and
the event list. -/
theorem addLoopState_events (p : LoopParams) (e e' : Entity)
    (h : addLoopState p e = some e') :
    e'.current_state = e.current_state + 1 ∧
    e'.behaviors.events =
      (if p.last_state then
        markLast (stateId e.current_state) (e.behaviors.events ++ [loopEvent p e])
      else e.behaviors.events ++ [loopEvent p e]) := by
  rw [addLoopState] at h
  rcases hb : bancoBlock p (groupStep p e) with _ | e1
  · simp only [hb] at h
    exact absurd h (by simp)
  simp only [hb] at h
  rcases hr : rancoBlock p e1 with _ | e2
  · simp only [hr] at h
    exact absurd h (by simp)
  simp only [hr, Option.some.injEq] at h
  obtain ⟨hb1, hb2, -, -⟩ := bancoBlock_some _ _ _ hb
  obtain ⟨hr1, hr2, -, -⟩ := rancoBlock_some _ _ _ hr
  subst h
  have hev : e2.behaviors.events = e.behaviors.events := by
    rw [hr1, hb1, groupStep_behaviors]
  have hcs : e2.current_state = e.current_state := by
    rw [hr2, hb2, groupStep_current]
  refine ⟨?_, ?_⟩
  · show (connStep _ (nameStep p (lastStateStep p (eventStep p
      (spawnPropsStep p e2))))).current_state + 1 = e.current_state + 1
    rw [connStep_current, nameStep_current, lastStateStep_current, eventStep_current,
      spawnPropsStep_current, hcs]
  · show (connStep _ (nameStep p (lastStateStep p (eventStep p
      (spawnPropsStep p e2))))).behaviors.events = _
    rw [connStep_events, nameStep_events, lastStateStep_events, eventStep_events,
      spawnPropsStep_events, hev, current_lstate_eq, eventStep_current,
      spawnPropsStep_current, hcs,
      loopEvent_congr p (spawnPropsStep p e2) e
        (by rw [spawnPropsStep_current, hcs])]

/-- The stat additions only ever append components. -/
theorem statAdds_components (p : LoopParams) (g : ComponentGroup) :
    ∃ rest, (statAdds p g).components = g.components ++ rest := by
  rw [statAdds]
  rcases p.hp with _ | hp <;> rcases p.attack with _ | atk <;>
    rcases p.move_speed with _ | ms <;> rcases hnd : p.no_damage <;>
    rcases p.components with _ | cs <;>
    simp [ComponentGroup.add_component, ComponentGroup.add_component_list]

/-- The timer target chosen inside `add_loop_state`: the explicit branch if
given, else the next sequential state, else — closing the loop — state 0. -/
def loopTimerTarget (p : LoopParams) (e : Entity) : String :=
  match p.timer_state with
  | some ts => ts
  | none => if ¬ p.last_state then e.next_lstate else "state_0"

/-- With a timer duration given, the new group's components start with the
skin id followed by the timer component aimed at `loopTimerTarget`. -/
theorem loopGroup_timer (p : LoopParams) (e : Entity) (tl : JVal)
    (htl : p.timer_len = some tl) :
    ∃ rest, (loopGroup p e).components =
      [component_skin_id e.current_state,
       component_timer tl (loopTimerTarget p e)] ++ rest := by
  rw [loopGroup, htl]
  rcases hts : p.timer_state with _ | ts
  · rw [loopTimerTarget, hts]
    by_cases hl : p.last_state <;>
      simp only [hl, not_true_eq_false, not_false_eq_true, if_true, if_false,
        Bool.false_eq_true, ite_false, ite_true] <;>
      exact statAdds_components p _
  · rw [loopTimerTarget, hts]
    exact statAdds_components p _

theorem addLoopState_groups (p : LoopParams) (e e' : Entity)
    (h : addLoopState p e = some e') :
    e'.behaviors.component_groups = e.behaviors.component_groups ++ [loopGroup p e] := by
  rw [addLoopState] at h
  rcases hb : bancoBlock p (groupStep p e) with _ | e1
  · simp only [hb] at h
    exact absurd h (by simp)
  simp only [hb] at h
  rcases hr : rancoBlock p e1 with _ | e2
  · simp only [hr] at h
    exact absurd h (by simp)
  simp only [hr, Option.some.injEq] at h
  obtain ⟨hb1, -, -, -⟩ := bancoBlock_some _ _ _ hb
  obtain ⟨hr1, -, -, -⟩ := rancoBlock_some _ _ _ hr
  subst h
  show (connStep _ (nameStep p (lastStateStep p (eventStep p
    (spawnPropsStep p e2))))).behaviors.component_groups = _
  rw [connStep_groups, nameStep_groups, lastStateStep_groups, eventStep_groups,
    spawnPropsStep_groups, hr1, hb1, groupStep_behaviors]

theorem addLoopState_lnames (p : LoopParams) (e e' : Entity)
    (h : addLoopState p e = some e') :
    e'.behaviors.lstate_names =
      connVal (effectiveConnList p) (stateId e.current_state)
        (nameVal p (stateId e.current_state) e.behaviors.lstate_names) := by
  rw [addLoopState] at h
  rcases hb : bancoBlock p (groupStep p e) with _ | e1
  · simp only [hb] at h
    exact absurd h (by simp)
  simp only [hb] at h
  rcases hr : rancoBlock p e1 with _ | e2
  · simp only [hr] at h
    exact absurd h (by simp)
  simp only [hr, Option.some.injEq] at h
  obtain ⟨hb1, hb2, -, -⟩ := bancoBlock_some _ _ _ hb
  obtain ⟨hr1, hr2, -, -⟩ := rancoBlock_some _ _ _ hr
  subst h
  have hcs : e2.current_state = e.current_state := by
    rw [hr2, hb2, groupStep_current]
  have hln : e2.behaviors.lstate_names = e.behaviors.lstate_names := by
    rw [hr1, hb1, groupStep_behaviors]
  show (connStep _ (nameStep p (lastStateStep p (eventStep p
    (spawnPropsStep p e2))))).behaviors.lstate_names = _
  show connVal _ (nameStep p (lastStateStep p (eventStep p
      (spawnPropsStep p e2)))).current_lstate _ = _
  rw [current_lstate_eq, nameStep_current, lastStateStep_current, eventStep_current,
    spawnPropsStep_current, hcs]
  show connVal _ _ (nameVal p (lastStateStep p (eventStep p
      (spawnPropsStep p e2))).current_lstate _) = _
  rw [current_lstate_eq, lastStateStep_current, eventStep_current,
    spawnPropsStep_current, hcs]
  show connVal _ _ (nameVal p _ (lastStateStep p (eventStep p
      (spawnPropsStep p e2))).behaviors.lstate_names) = _
  rw [lastStateStep_lnames, eventStep_lnames, spawnPropsStep_lnames, hln]

/-- Looking up key `i` after the in-place append: the found entry is the old
first entry with `cur` appended to its connection list. -/
theorem find_map_connUpd (i cur : String) :
    ∀ names : LstateNames,
      ((names.map (connUpd i cur)).find? (fun en => en.1 = i)).map (fun en => en.2) =
        (names.find? (fun en => en.1 = i)).map (fun en => (en.2.1, en.2.2 ++ [cur]))
  | [] => rfl
  | hd :: tl => by
    rw [List.map_cons, List.find?_cons, List.find?_cons]
    by_cases hhd : hd.1 = i
    · have h1 : (connUpd i cur hd).1 = i := by simp [connUpd, hhd]
      rw [decide_eq_true h1, decide_eq_true hhd]
      simp [connUpd, hhd]
    · have h1 : ¬ (connUpd i cur hd).1 = i := by simp [connUpd, hhd]
      rw [decide_eq_false h1, decide_eq_false hhd]
      simpa using find_map_connUpd i cur tl

/-- After `connOne cur names i`, the first entry for key `i` exists and its
connection list ends with `cur`. -/
theorem connOne_registers (cur : String) (names : LstateNames) (i : String) :
    ∃ t0 ss, ((connOne cur names i).find? (fun en => en.1 = i)).map (fun en => en.2) =
      some (t0, ss ++ [cur]) := by
  rw [connOne]
  rcases hf : names.find? (fun en => en.1 = i) with _ | en0
  · simp only [hf, Option.isSome_none, Bool.false_eq_true, if_false]
    refine ⟨none, [], ?_⟩
    rw [find_map_connUpd, List.find?_append, hf]
    simp
  · simp only [hf, Option.isSome_some, if_true]
    refine ⟨en0.2.1, en0.2.2, ?_⟩
    rw [find_map_connUpd, hf]
    rfl

/-! ### Decimal representations: `state_<k>` for `k ≥ 0` never collides with
`state_-1` -/

theorem digitChar_isDigit (n : Nat) (h : n < 10) : (Nat.digitChar n).isDigit = true := by
  interval_cases n <;> decide

theorem toDigitsCore_digits (fuel : Nat) :
    ∀ (n : Nat) (acc : List Char), (∀ c ∈ acc, c.isDigit = true) →
      ∀ c ∈ Nat.toDigitsCore 10 fuel n acc, c.isDigit = true := by
  induction fuel with
  | zero => intro n acc hacc c hc; exact hacc c hc
  | succ fuel ih =>
    intro n acc hacc c hc
    rw [Nat.toDigitsCore] at hc
    have hd : (Nat.digitChar (n % 10)).isDigit = true :=
      digitChar_isDigit _ (Nat.mod_lt _ (by decide))
    have hacc' : ∀ c ∈ Nat.digitChar (n % 10) :: acc, c.isDigit = true := by
      intro c hc
      rcases List.mem_cons.mp hc with h | h
      · rw [h]; exact hd
      · exact hacc c h
    split at hc
    · exact hacc' c hc
    · exact ih _ _ hacc' c hc

theorem natRepr_all_digits (n : Nat) : ∀ c ∈ (Nat.repr n).data, c.isDigit = true := by
  intro c hc
  exact toDigitsCore_digits (n + 1) n [] (by simp) c hc

theorem natRepr_ne_neg_one (n : Nat) : Nat.repr n ≠ "-1" := by
  intro h
  have hm : '-' ∈ (Nat.repr n).data := by
    rw [h]
    decide
  have := natRepr_all_digits n '-' hm
  exact absurd this (by decide)

theorem stateId_nonneg_ne (n : Nat) : stateId (n : Int) ≠ stateId (-1) := by
  intro h
  have hdata : (stateId (n : Int)).data = (stateId (-1)).data := by rw [h]
  rw [stateId, stateId] at hdata
  simp only [String.data_append] at hdata
  have hts : (toString (n : Int)).data = (toString (-1 : Int)).data :=
    List.append_cancel_left hdata
  have h1 : toString (n : Int) = Nat.repr n := rfl
  have h2 : toString (-1 : Int) = "-1" := rfl
  rw [h1, h2] at hts
  exact natRepr_ne_neg_one n (String.ext hts)

/-! ### The linear event chain produced by consecutive calls -/

/-- The event of a linearly-created loop state `k`. -/
def linEvent (sp : List (String × JVal)) (k : Int) : EventM :=
  .mk { identifier := stateId k
        add_groups := [stateId k]
        remove_groups := [stateId (k - 1)]
        set_properties := sp } []

theorem loopEvent_eq_linEvent (p : LoopParams) (e : Entity) :
    loopEvent p e = linEvent (p.set_properties.getD []) e.current_state := rfl

/-- The events created by a sequence of calls starting at counter `cs`. -/
def linEvents (cs : Int) : List LoopParams → List EventM
  | [] => []
  | p :: ps => linEvent (p.set_properties.getD []) cs :: linEvents (cs + 1) ps

theorem runCalls_cons (p : LoopParams) (ps : List LoopParams) (e : Entity) :
    runCalls (p :: ps) e = (addLoopState p e).bind (runCalls ps) := by
  rw [runCalls, List.foldlM_cons]
  rcases addLoopState p e with _ | e1 <;> rfl

/-- Without `last_state`, a successful call sequence appends exactly the
linear event chain and advances the counter by the number of calls. -/
theorem runCalls_linear (ps : List LoopParams) (hlast : ∀ p ∈ ps, p.last_state = false) :
    ∀ (e e' : Entity), runCalls ps e = some e' →
      e'.behaviors.events = e.behaviors.events ++ linEvents e.current_state ps ∧
      e'.current_state = e.current_state + ps.length := by
  induction ps with
  | nil =>
    intro e e' h
    simp only [runCalls, List.foldlM_nil, Option.pure_def, Option.some.injEq] at h
    subst h
    simp [linEvents]
  | cons p ps ih =>
    intro e e' h
    rw [runCalls_cons] at h
    rcases hA : addLoopState p e with _ | e1
    · rw [hA] at h
      exact absurd h (by simp)
    rw [hA, Option.some_bind] at h
    obtain ⟨hcs1, hev1⟩ := addLoopState_events p e e1 hA
    rw [hlast p (by simp)] at hev1
    simp only [Bool.false_eq_true, if_false] at hev1
    obtain ⟨hev2, hcs2⟩ := ih (fun q hq => hlast q (by simp [hq])) e1 e' h
    constructor
    · rw [hev2, hev1, hcs1, loopEvent_eq_linEvent]
      simp [linEvents]
    · rw [hcs2, hcs1]
      simp only [List.length_cons]
      push_cast
      ring

theorem linEvents_get? (cs : Int) :
    ∀ (ps : List LoopParams) (k : Nat),
      (linEvents cs ps).get? k =
        (ps.get? k).map (fun p => linEvent (p.set_properties.getD []) (cs + k)) := by
  intro ps
  induction ps generalizing cs with
  | nil => intro k; simp [linEvents]
  | cons p ps ih =>
    intro k
    cases k with
    | zero => simp [linEvents]
    | succ k =>
      rw [linEvents]
      simp only [List.get?_cons_succ]
      rw [ih (cs + 1) k]
      congr 1
      funext q
      congr 1
      push_cast
      ring

/-! ### The `init` hub state of the two controllers -/

/-- The `init` states of a controller, in order. -/
def initsOf (a : AnimationController) : List AncoState :=
  a.states.filter (fun st => st.identifier = "init")

/-- The hub transition registered for loop state `k`. -/
def initTrans (k : Int) : String × String :=
  (stateId k, "query.skin_id==" ++ toString k)

/-- The canonical shape of a controller's `init` states after serving the loop
states with indices `sel`: none while unused, exactly one hub carrying one
entry transition per index afterwards. -/
def canonInit (sel : List Int) : List AncoState :=
  if sel = [] then []
  else [{ identifier := "init", transitions := sel.map initTrans }]

theorem canonInit_len (sel : List Int) : (canonInit sel).length ≤ 1 := by
  rw [canonInit]
  split <;> simp

/-- The loop-state indices whose calls wire behavior controller `j`. -/
def bancoSel (j : Nat) : Int → List LoopParams → List Int
  | _, [] => []
  | cs, p :: ps =>
    (if (p.entry_commands.isSome ∨ p.exit_commands.isSome) ∧ p.banco_id = j
     then [cs] else []) ++ bancoSel j (cs + 1) ps

/-- The loop-state indices whose calls wire render controller `j`. -/
def rancoSel (j : Nat) : Int → List LoopParams → List Int
  | _, [] => []
  | cs, p :: ps =>
    (if p.animation.isSome ∧ p.ranco_id = j then [cs] else []) ++
      rancoSel j (cs + 1) ps

theorem stateId_ne_init (k : Int) : stateId k ≠ "init" := by
  intro h
  have hlen : (stateId k).length = ("init" : String).length := by rw [h]
  rw [stateId, String.length_append] at hlen
  have h6 : ("state_" : String).length = 6 := rfl
  have h4 : ("init" : String).length = 4 := rfl
  rw [h6, h4] at hlen
  omega

theorem initsOf_add_state (a : AnimationController) (st : AncoState) :
    initsOf (a.add_state st) =
      initsOf a ++ (if st.identifier = "init" then [st] else []) := by
  rw [initsOf, initsOf, AnimationController.add_state, List.filter_append]
  congr 1
  split <;> simp_all

theorem has_state_init_iff (a : AnimationController) :
    a.has_state "init" = true ↔ initsOf a ≠ [] := by
  rw [AnimationController.has_state, initsOf]
  rw [List.any_eq_true]
  rw [Ne, List.filter_eq_nil_iff]
  simp

theorem modifyStates_filter_init (f : AncoState → AncoState)
    (hf : ∀ st, (f st).identifier = st.identifier) :
    ∀ states : List AncoState,
      (modifyStates "init" f states).filter (fun st => st.identifier = "init") =
        match states.filter (fun st => st.identifier = "init") with
        | [] => []
        | st :: rest => f st :: rest := by
  intro states
  induction states with
  | nil => rfl
  | cons st rest ih =>
    by_cases hst : st.identifier = "init"
    · rw [modifyStates]
      rw [if_pos hst]
      rw [List.filter_cons, List.filter_cons]
      have hfst : (f st).identifier = "init" := by rw [hf st, hst]
      simp only [hst, hfst, decide_True, if_true]
    · rw [modifyStates]
      rw [if_neg hst]
      rw [List.filter_cons, List.filter_cons]
      simp only [hst, decide_False, if_false]
      exact ih

theorem initsOf_modifyState (a : AnimationController) (f : AncoState → AncoState)
    (hf : ∀ st, (f st).identifier = st.identifier) :
    initsOf (a.modifyState "init" f) =
      match initsOf a with
      | [] => []
      | st :: rest => f st :: rest := by
  rw [initsOf, AnimationController.modifyState]
  exact modifyStates_filter_init f hf a.states

/-- The hub-ensure plus hub-transition tail shared by both wirings. -/
theorem hubWire_inits (A : AnimationController) (cs : Int) (sel : List Int)
    (hA : initsOf A = canonInit sel) :
    initsOf ((if ¬ A.has_state "init" then A.add_state { identifier := "init" }
        else A).modifyState "init"
      (fun st => st.add_transition ("state_" ++ toString cs)
        ("query.skin_id==" ++ toString cs))) =
      canonInit (sel ++ [cs]) := by
  rcases hnil : sel with _ | ⟨k, ks⟩
  · rw [hnil] at hA
    have hempty : initsOf A = [] := by
      rw [hA, canonInit]
      simp
    have hhs : A.has_state "init" = false := by
      rcases hcon : A.has_state "init"
      · rfl
      · exact absurd hempty ((has_state_init_iff A).mp hcon)
    rw [if_pos (by simp [hhs])]
    rw [initsOf_modifyState _ (fun st => st.add_transition ("state_" ++ toString cs)
      ("query.skin_id==" ++ toString cs)) (fun st => rfl), initsOf_add_state, hempty]
    rw [canonInit]
    simp [AncoState.add_transition, initTrans, stateId]
  · have hne : sel ≠ [] := by rw [hnil]; simp
    have hone : initsOf A =
        [{ identifier := "init", transitions := sel.map initTrans }] := by
      rw [hA, canonInit, if_neg hne]
    have hhs : A.has_state "init" = true :=
      (has_state_init_iff A).mpr (by rw [hone]; simp)
    rw [if_neg (by simp [hhs])]
    rw [initsOf_modifyState _ (fun st => st.add_transition ("state_" ++ toString cs)
      ("query.skin_id==" ++ toString cs)) (fun st => rfl), hone]
    rw [canonInit, if_neg (by simp)]
    simp [AncoState.add_transition, initTrans, stateId, hnil]

/-- The behavior wiring's effect on the `init` states: starting from the
canonical shape for `sel`, it produces the canonical shape for
`sel ++ [cs]`. -/
theorem bancoWire_inits (p : LoopParams) (cs : Int) (b : AnimationController)
    (sel : List Int) (hsel : initsOf b = canonInit sel) :
    initsOf (bancoWire p cs b) = canonInit (sel ++ [cs]) := by
  rw [bancoWire]
  refine hubWire_inits _ cs sel ?_
  show initsOf (b.add_state
      { identifier := "state_" ++ toString cs
        transitions := [("init", "query.skin_id!=" ++ toString cs)]
        on_entry := p.entry_commands.getD []
        on_exit := p.exit_commands.getD [] }) = canonInit sel
  rw [initsOf_add_state]
  have hne : ("state_" ++ toString cs) ≠ "init" := stateId_ne_init cs
  simpa [hne] using hsel

/-- The render wiring's effect on the `init` states. -/
theorem rancoWire_inits (p : LoopParams) (cs : Int) (anim : String)
    (r : AnimationController) (sel : List Int) (hsel : initsOf r = canonInit sel) :
    initsOf (rancoWire p cs anim r) = canonInit (sel ++ [cs]) := by
  rw [rancoWire]
  refine hubWire_inits _ cs sel ?_
  show initsOf (r.add_state
      { identifier := "state_" ++ toString cs
        transitions :=
          if p.end_anim_with_state then
            [("init", "query.skin_id!=" ++ toString cs)]
          else
            [("init", "query.all_animations_finished")]
        animations := [anim]
        transition_time := some p.anim_blend_time }) = canonInit sel
  rw [initsOf_add_state]
  have hne : ("state_" ++ toString cs) ≠ "init" := stateId_ne_init cs
  simpa [hne] using hsel

theorem bancoBlock_get? (p : LoopParams) (e e' : Entity)
    (h : bancoBlock p e = some e') (j : Nat) :
    e'.bancos.get? j =
      if (p.entry_commands.isSome ∨ p.exit_commands.isSome) ∧ p.banco_id = j then
        (e.bancos.get? j).map (bancoWire p e.current_state)
      else e.bancos.get? j := by
  rw [bancoBlock] at h
  split at h
  case isTrue hc =>
    split at h
    case isTrue hlt =>
      simp only [Option.some.injEq] at h
      subst h
      by_cases hj : p.banco_id = j
      · subst hj
        rw [if_pos ⟨hc, rfl⟩]
        show (e.bancos.set p.banco_id _).get? p.banco_id = _
        rw [List.get?_eq_getElem?, List.get?_eq_getElem?,
          List.getElem?_set_self hlt, List.getElem?_eq_getElem hlt]
        rfl
      · rw [if_neg (by simp [hj])]
        show (e.bancos.set p.banco_id _).get? j = e.bancos.get? j
        rw [List.get?_eq_getElem?, List.get?_eq_getElem?, List.getElem?_set_ne hj]
    case isFalse => exact absurd h (by simp)
  case isFalse hc =>
    simp only [Option.some.injEq] at h
    subst h
    rw [if_neg (fun hcon => hc hcon.1)]

theorem rancoBlock_get? (p : LoopParams) (e e' : Entity)
    (h : rancoBlock p e = some e') (j : Nat) :
    e'.rancos.get? j =
      match p.animation with
      | some anim =>
        if p.ranco_id = j then
          (e.rancos.get? j).map (rancoWire p e.current_state anim)
        else e.rancos.get? j
      | none => e.rancos.get? j := by
  rw [rancoBlock] at h
  rcases ha : p.animation with _ | anim
  · simp only [ha, Option.some.injEq] at h
    subst h
    simp only [ha]
  · simp only [ha] at h ⊢
    split at h
    next hlt =>
      simp only [Option.some.injEq] at h
      subst h
      by_cases hj : p.ranco_id = j
      · subst hj
        rw [if_pos rfl]
        show (e.rancos.set p.ranco_id _).get? p.ranco_id = _
        rw [List.get?_eq_getElem?, List.get?_eq_getElem?,
          List.getElem?_set_self hlt, List.getElem?_eq_getElem hlt]
        rfl
      · rw [if_neg hj]
        show (e.rancos.set p.ranco_id _).get? j = e.rancos.get? j
        rw [List.get?_eq_getElem?, List.get?_eq_getElem?, List.getElem?_set_ne hj]
    next => exact absurd h (by simp)

/-- The effect of one successful call on a behavior controller. -/
theorem addLoopState_bancos_get? (p : LoopParams) (e e' : Entity)
    (h : addLoopState p e = some e') (j : Nat) :
    e'.bancos.get? j =
      if (p.entry_commands.isSome ∨ p.exit_commands.isSome) ∧ p.banco_id = j then
        (e.bancos.get? j).map (bancoWire p e.current_state)
      else e.bancos.get? j := by
  rw [addLoopState] at h
  rcases hb : bancoBlock p (groupStep p e) with _ | e1
  · simp only [hb] at h
    exact absurd h (by simp)
  simp only [hb] at h
  rcases hr : rancoBlock p e1 with _ | e2
  · simp only [hr] at h
    exact absurd h (by simp)
  simp only [hr, Option.some.injEq] at h
  obtain ⟨-, -, hrb, -⟩ := rancoBlock_some _ _ _ hr
  subst h
  show (connStep (effectiveConnList p) (nameStep p (lastStateStep p (eventStep p
    (spawnPropsStep p e2))))).bancos.get? j = _
  rw [connStep_bancos, nameStep_bancos, lastStateStep_bancos, eventStep_bancos,
    spawnPropsStep_bancos, hrb]
  have := bancoBlock_get? p (groupStep p e) e1 hb j
  rw [groupStep_bancos, groupStep_current] at this
  exact this

/-- The effect of one successful call on a render controller. -/
theorem addLoopState_rancos_get? (p : LoopParams) (e e' : Entity)
    (h : addLoopState p e = some e') (j : Nat) :
    e'.rancos.get? j =
      match p.animation with
      | some anim =>
        if p.ranco_id = j then
          (e.rancos.get? j).map (rancoWire p e.current_state anim)
        else e.rancos.get? j
      | none => e.rancos.get? j := by
  rw [addLoopState] at h
  rcases hb : bancoBlock p (groupStep p e) with _ | e1
  · simp only [hb] at h
    exact absurd h (by simp)
  simp only [hb] at h
  rcases hr : rancoBlock p e1 with _ | e2
  · simp only [hr] at h
    exact absurd h (by simp)
  simp only [hr, Option.some.injEq] at h
  obtain ⟨-, hbc, hbr, -⟩ := bancoBlock_some _ _ _ hb
  subst h
  show (connStep (effectiveConnList p) (nameStep p (lastStateStep p (eventStep p
    (spawnPropsStep p e2))))).rancos.get? j = _
  rw [connStep_rancos, nameStep_rancos, lastStateStep_rancos, eventStep_rancos,
    spawnPropsStep_rancos]
  have := rancoBlock_get? p e1 e2 hr j
  rw [hbr, groupStep_rancos, hbc, groupStep_current] at this
  exact this

/-- A call sequence accumulates exactly the selected hub transitions on each
behavior controller. -/
theorem runCalls_banco_inits (ps : List LoopParams) :
    ∀ (e e' : Entity), runCalls ps e = some e' →
      ∀ (j : Nat) (sel : List Int) (b : AnimationController),
        e.bancos.get? j = some b → initsOf b = canonInit sel →
        ∃ b', e'.bancos.get? j = some b' ∧
          initsOf b' = canonInit (sel ++ bancoSel j e.current_state ps) := by
  induction ps with
  | nil =>
    intro e e' h j sel b hb hsel
    simp only [runCalls, List.foldlM_nil, Option.pure_def, Option.some.injEq] at h
    subst h
    exact ⟨b, hb, by rw [hsel, bancoSel]; simp⟩
  | cons p ps ih =>
    intro e e' h j sel b hb hsel
    rw [runCalls_cons] at h
    rcases hA : addLoopState p e with _ | e1
    · rw [hA] at h
      exact absurd h (by simp)
    rw [hA, Option.some_bind] at h
    have hget := addLoopState_bancos_get? p e e1 hA j
    obtain ⟨hcs1, -⟩ := addLoopState_events p e e1 hA
    rw [bancoSel]
    by_cases hc : (p.entry_commands.isSome ∨ p.exit_commands.isSome) ∧ p.banco_id = j
    · rw [if_pos hc] at hget
      rw [if_pos hc]
      have hb1 : e1.bancos.get? j = some (bancoWire p e.current_state b) := by
        rw [hget, hb, Option.map_some']
      obtain ⟨b', hb', hsel'⟩ := ih e1 e' h j (sel ++ [e.current_state])
        (bancoWire p e.current_state b) hb1
        (bancoWire_inits p e.current_state b sel hsel)
      refine ⟨b', hb', ?_⟩
      rw [hsel', hcs1]
      simp
    · rw [if_neg hc] at hget
      rw [if_neg hc]
      have hb1 : e1.bancos.get? j = some b := by rw [hget, hb]
      obtain ⟨b', hb', hsel'⟩ := ih e1 e' h j sel b hb1 hsel
      refine ⟨b', hb', ?_⟩
      rw [hsel', hcs1]
      simp

/-- A call sequence accumulates exactly the selected hub transitions on each
render controller. -/
theorem runCalls_ranco_inits (ps : List LoopParams) :
    ∀ (e e' : Entity), runCalls ps e = some e' →
      ∀ (j : Nat) (sel : List Int) (r : AnimationController),
        e.rancos.get? j = some r → initsOf r = canonInit sel →
        ∃ r', e'.rancos.get? j = some r' ∧
          initsOf r' = canonInit (sel ++ rancoSel j e.current_state ps) := by
  induction ps with
  | nil =>
    intro e e' h j sel r hr hsel
    simp only [runCalls, List.foldlM_nil, Option.pure_def, Option.some.injEq] at h
    subst h
    exact ⟨r, hr, by rw [hsel, rancoSel]; simp⟩
  | cons p ps ih =>
    intro e e' h j sel r hr hsel
    rw [runCalls_cons] at h
    rcases hA : addLoopState p e with _ | e1
    · rw [hA] at h
      exact absurd h (by simp)
    rw [hA, Option.some_bind] at h
    have hget := addLoopState_rancos_get? p e e1 hA j
    obtain ⟨hcs1, -⟩ := addLoopState_events p e e1 hA
    rw [rancoSel]
    rcases ha : p.animation with _ | anim <;> simp only [ha] at hget
    · have hr1 : e1.rancos.get? j = some r := by rw [hget, hr]
      obtain ⟨r', hr', hsel'⟩ := ih e1 e' h j sel r hr1 hsel
      refine ⟨r', hr', ?_⟩
      rw [hsel', hcs1]
      simp [ha]
    · by_cases hj : p.ranco_id = j
      · rw [if_pos hj] at hget
        have hr1 : e1.rancos.get? j = some (rancoWire p e.current_state anim r) := by
          rw [hget, hr, Option.map_some']
        obtain ⟨r', hr', hsel'⟩ := ih e1 e' h j (sel ++ [e.current_state])
          (rancoWire p e.current_state anim r) hr1
          (rancoWire_inits p e.current_state anim r sel hsel)
        refine ⟨r', hr', ?_⟩
        rw [hsel', hcs1]
        simp [ha, hj]
      · rw [if_neg hj] at hget
        have hr1 : e1.rancos.get? j = some r := by rw [hget, hr]
        obtain ⟨r', hr', hsel'⟩ := ih e1 e' h j sel r hr1 hsel
        refine ⟨r', hr', ?_⟩
        rw [hsel', hcs1]
        simp [ha, hj]

/-- Controller-list lengths never change across calls. -/
theorem runCalls_controller_lengths (ps : List LoopParams) :
    ∀ (e e' : Entity), runCalls ps e = some e' →
      e'.bancos.length = e.bancos.length ∧ e'.rancos.length = e.rancos.length := by
  induction ps with
  | nil =>
    intro e e' h
    simp only [runCalls, List.foldlM_nil, Option.pure_def, Option.some.injEq] at h
    subst h
    exact ⟨rfl, rfl⟩
  | cons p ps ih =>
    intro e e' h
    rw [runCalls_cons] at h
    rcases hA : addLoopState p e with _ | e1
    · rw [hA] at h
      exact absurd h (by simp)
    rw [hA, Option.some_bind] at h
    obtain ⟨ihb, ihr⟩ := ih e1 e' h
    rw [addLoopState] at hA
    rcases hb : bancoBlock p (groupStep p e) with _ | eb
    · simp only [hb] at hA
      exact absurd hA (by simp)
    simp only [hb] at hA
    rcases hrr : rancoBlock p eb with _ | er
    · simp only [hrr] at hA
      exact absurd hA (by simp)
    simp only [hrr, Option.some.injEq] at hA
    obtain ⟨-, -, hbra, hbl⟩ := bancoBlock_some _ _ _ hb
    obtain ⟨-, -, hrba, hrl⟩ := rancoBlock_some _ _ _ hrr
    subst hA
    constructor
    · rw [ihb]
      show (connStep (effectiveConnList p) (nameStep p (lastStateStep p (eventStep p
        (spawnPropsStep p er))))).bancos.length = _
      rw [connStep_bancos, nameStep_bancos, lastStateStep_bancos, eventStep_bancos,
        spawnPropsStep_bancos, hrba, hbl, groupStep_bancos]
    · rw [ihr]
      show (connStep (effectiveConnList p) (nameStep p (lastStateStep p (eventStep p
        (spawnPropsStep p er))))).rancos.length = _
      rw [connStep_rancos, nameStep_rancos, lastStateStep_rancos, eventStep_rancos,
        spawnPropsStep_rancos, hrl, hbra, groupStep_rancos]

/-! ### Idempotence of the structural branch-resolution patch -/

/-- `b` is `a` with (only) some ids appended to its remove-list — the shape of
any event after any number of structural-patch steps. -/
def patchedFrom (a b : EventM) : Prop :=
  (∃ ext, b.core.remove_groups = a.core.remove_groups ++ ext) ∧
  b.core.identifier = a.core.identifier ∧
  b.core.namespace_ = a.core.namespace_ ∧
  b.core.add_groups = a.core.add_groups ∧
  b.core.randomizers = a.core.randomizers ∧
  b.core.set_properties = a.core.set_properties ∧
  b.core.next_event = a.core.next_event ∧
  b.core.remove_groups_attr = a.core.remove_groups_attr ∧
  b.sequential_events = a.sequential_events

theorem patchedFrom_refl (a : EventM) : patchedFrom a a :=
  ⟨⟨[], by simp⟩, rfl, rfl, rfl, rfl, rfl, rfl, rfl, rfl⟩

theorem patchedFrom_trans {a b c : EventM} (h1 : patchedFrom a b)
    (h2 : patchedFrom b c) : patchedFrom a c := by
  obtain ⟨⟨e1, he1⟩, h1⟩ := h1
  obtain ⟨⟨e2, he2⟩, h2⟩ := h2
  exact ⟨⟨e1 ++ e2, by rw [he2, he1, List.append_assoc]⟩,
    h2.1.trans h1.1, h2.2.1.trans h1.2.1, h2.2.2.1.trans h1.2.2.1,
    h2.2.2.2.1.trans h1.2.2.2.1, h2.2.2.2.2.1.trans h1.2.2.2.2.1,
    h2.2.2.2.2.2.1.trans h1.2.2.2.2.2.1, h2.2.2.2.2.2.2.1.trans h1.2.2.2.2.2.2.1,
    h2.2.2.2.2.2.2.2.trans h1.2.2.2.2.2.2.2⟩

theorem patchedFrom_get_id {a b : EventM} (h : patchedFrom a b) :
    b.get_id = a.get_id := by
  rw [EventM.get_id, EventM.get_id, h.2.1, h.2.2.1]

theorem patchedFrom_mem {a b : EventM} (h : patchedFrom a b) {x : String}
    (hx : x ∈ a.core.remove_groups) : x ∈ b.core.remove_groups := by
  obtain ⟨⟨ext, hext⟩, -⟩ := h
  rw [hext]
  exact List.mem_append_left _ hx

theorem addRemoveIfAbsent_patchedFrom (e : EventM) (src : String) :
    patchedFrom e (addRemoveIfAbsent e src) := by
  rw [addRemoveIfAbsent]
  split
  · exact patchedFrom_refl e
  · cases e
    exact ⟨⟨[src], rfl⟩, rfl, rfl, rfl, rfl, rfl, rfl, rfl, rfl⟩

theorem patchEvent_patchedFrom (srcs : List String) :
    ∀ e : EventM, patchedFrom e (patchEvent srcs e) := by
  induction srcs with
  | nil => exact fun e => patchedFrom_refl e
  | cons s rest ih =>
    intro e
    rw [patchEvent, List.foldl_cons]
    exact patchedFrom_trans (addRemoveIfAbsent_patchedFrom e s) (ih _)

theorem addRemoveIfAbsent_mem_self (e : EventM) (src : String) :
    src ∈ (addRemoveIfAbsent e src).core.remove_groups := by
  rw [addRemoveIfAbsent]
  split
  next hmem => exact hmem
  next =>
    cases e
    simp [modifyCore_core]

theorem patchEvent_mem (srcs : List String) :
    ∀ (e : EventM) (src : String), src ∈ srcs →
      src ∈ (patchEvent srcs e).core.remove_groups := by
  induction srcs with
  | nil => intro e src h; cases h
  | cons s rest ih =>
    intro e src h
    rw [patchEvent, List.foldl_cons]
    rcases List.mem_cons.mp h with h | h
    · subst h
      exact patchedFrom_mem (patchEvent_patchedFrom rest _)
        (addRemoveIfAbsent_mem_self e src)
    · exact ih _ src h

theorem updateFirstEvent_forall₂ (t : String) (f : EventM → EventM)
    (hf : ∀ e, patchedFrom e (f e)) :
    ∀ evs : List EventM, List.Forall₂ patchedFrom evs (updateFirstEvent evs t f) := by
  intro evs
  induction evs with
  | nil => exact List.Forall₂.nil
  | cons e rest ih =>
    rw [updateFirstEvent]
    split
    · exact List.Forall₂.cons (hf e) (List.forall₂_same.mpr (fun x _ => patchedFrom_refl x))
    · exact List.Forall₂.cons (patchedFrom_refl e) ih

theorem patchEntry_forall₂ (evs : List EventM)
    (en : String × (Option String × List String)) :
    List.Forall₂ patchedFrom evs (patchEntry evs en) := by
  obtain ⟨k, tgt, srcs⟩ := en
  cases tgt with
  | none => exact List.forall₂_same.mpr (fun x _ => patchedFrom_refl x)
  | some t => exact updateFirstEvent_forall₂ t _ (patchEvent_patchedFrom srcs) evs

theorem forall₂_patchedFrom_trans :
    ∀ {l1 l2 l3 : List EventM}, List.Forall₂ patchedFrom l1 l2 →
      List.Forall₂ patchedFrom l2 l3 → List.Forall₂ patchedFrom l1 l3 := by
  intro l1 l2 l3 h1 h2
  induction h1 generalizing l3 with
  | nil => cases h2; exact List.Forall₂.nil
  | cons hab h ih =>
    cases h2 with
    | cons hbc h' => exact List.Forall₂.cons (patchedFrom_trans hab hbc) (ih h')

/-- First-match lookup through the pointwise patch relation: a miss stays a
miss. -/
theorem find?_forall₂_none (t : String) :
    ∀ {l1 l2 : List EventM}, List.Forall₂ patchedFrom l1 l2 →
      l1.find? (fun e => e.get_id = t) = none →
      l2.find? (fun e => e.get_id = t) = none := by
  intro l1 l2 h
  induction h with
  | nil => intro _; rfl
  | cons hab h ih =>
    rename_i a b as bs
    intro hnone
    have ha : ¬ a.get_id = t := by
      have := List.find?_eq_none.mp hnone a (by simp)
      simpa using this
    have hb : ¬ b.get_id = t := by rw [patchedFrom_get_id hab]; exact ha
    rw [List.find?_cons_of_neg _ (by simpa using hb)]
    exact ih (by
      have := hnone
      rw [List.find?_cons_of_neg _ (by simpa using ha)] at this
      exact this)

/-- First-match lookup through the pointwise patch relation: a hit maps to a
patched hit. -/
theorem find?_forall₂_some (t : String) :
    ∀ {l1 l2 : List EventM}, List.Forall₂ patchedFrom l1 l2 →
      ∀ {a : EventM}, l1.find? (fun e => e.get_id = t) = some a →
      ∃ b, l2.find? (fun e => e.get_id = t) = some b ∧ patchedFrom a b := by
  intro l1 l2 h
  induction h with
  | nil => intro a ha; cases ha
  | cons hab h ih =>
    rename_i a b as bs
    intro x hx
    by_cases ha : a.get_id = t
    · rw [List.find?_cons_of_pos _ (by simpa using ha)] at hx
      cases hx
      exact ⟨b, List.find?_cons_of_pos _
        (by simp [patchedFrom_get_id hab, ha]), hab⟩
    · have hb : ¬ b.get_id = t := by rw [patchedFrom_get_id hab]; exact ha
      rw [List.find?_cons_of_neg _ (by simpa using ha)] at hx
      obtain ⟨y, hy, hxy⟩ := ih hx
      exact ⟨y, by rw [List.find?_cons_of_neg _ (by simpa using hb)]; exact hy, hxy⟩

/-- One registry entry has been fully applied to an event list: the target's
event (if any) already carries every connecting state's id. -/
def entryDone (evs : List EventM) (en : String × (Option String × List String)) : Prop :=
  ∀ t, en.2.1 = some t →
    ∀ ev, evs.find? (fun e => e.get_id = t) = some ev →
      ∀ src ∈ en.2.2, src ∈ ev.core.remove_groups

theorem updateFirstEvent_eq_self (t : String) (f : EventM → EventM) :
    ∀ evs : List EventM,
      (∀ ev, evs.find? (fun e => e.get_id = t) = some ev → f ev = ev) →
      updateFirstEvent evs t f = evs := by
  intro evs
  induction evs with
  | nil => intro _; rfl
  | cons e rest ih =>
    intro hf
    by_cases he : e.get_id = t
    · have hu : updateFirstEvent (e :: rest) t f = f e :: rest := by
        simp only [updateFirstEvent, if_pos he]
      rw [hu, hf e (List.find?_cons_of_pos _ (by simpa using he))]
    · have hu : updateFirstEvent (e :: rest) t f = e :: updateFirstEvent rest t f := by
        simp only [updateFirstEvent, if_neg he]
      rw [hu, ih (fun ev hev => hf ev
        (by rw [List.find?_cons_of_neg _ (by simpa using he)]; exact hev))]

theorem patchEvent_eq_self (srcs : List String) :
    ∀ e : EventM, (∀ src ∈ srcs, src ∈ e.core.remove_groups) → patchEvent srcs e = e := by
  induction srcs with
  | nil => intro e _; rfl
  | cons s rest ih =>
    intro e he
    rw [patchEvent, List.foldl_cons, addRemoveIfAbsent, if_pos (he s (by simp))]
    exact ih e (fun src h => he src (by simp [h]))

theorem patchEntry_eq_of_done (evs : List EventM)
    (en : String × (Option String × List String)) (hdone : entryDone evs en) :
    patchEntry evs en = evs := by
  obtain ⟨k, tgt, srcs⟩ := en
  cases tgt with
  | none => rfl
  | some t =>
    exact updateFirstEvent_eq_self t _ evs
      (fun ev hev => patchEvent_eq_self srcs ev (hdone t rfl ev hev))

/-- The first-match lookup after updating the first match. -/
theorem find?_updateFirstEvent (t : String) (f : EventM → EventM)
    (hf : ∀ e, (f e).get_id = e.get_id) :
    ∀ evs : List EventM,
      (updateFirstEvent evs t f).find? (fun e => e.get_id = t) =
        (evs.find? (fun e => e.get_id = t)).map f := by
  intro evs
  induction evs with
  | nil => rfl
  | cons e rest ih =>
    rw [updateFirstEvent]
    split
    next he =>
      rw [List.find?_cons, List.find?_cons, decide_eq_true he,
        decide_eq_true (by rw [hf e]; exact he)]
      rfl
    next he =>
      rw [List.find?_cons, List.find?_cons, decide_eq_false he]
      exact ih

theorem entryDone_patchEntry_self (evs : List EventM)
    (en : String × (Option String × List String)) : entryDone (patchEntry evs en) en := by
  obtain ⟨k, tgt, srcs⟩ := en
  intro t ht ev hev0 src hsrc
  cases ht
  have hev : (updateFirstEvent evs t (patchEvent srcs)).find?
      (fun e => e.get_id = t) = some ev := hev0
  have hfind : (updateFirstEvent evs t (patchEvent srcs)).find? (fun e => e.get_id = t) =
      (evs.find? (fun e => e.get_id = t)).map (patchEvent srcs) :=
    find?_updateFirstEvent t _
      (fun e => patchedFrom_get_id (patchEvent_patchedFrom srcs e)) evs
  rw [hfind] at hev
  rcases ha : evs.find? (fun e => e.get_id = t) with _ | a <;> rw [ha] at hev
  · cases hev
  · rw [show Option.map (patchEvent srcs) (some a) = some (patchEvent srcs a) from rfl] at hev
    cases hev
    exact patchEvent_mem srcs a src hsrc

theorem entryDone_mono {evs evs' : List EventM}
    (h : List.Forall₂ patchedFrom evs evs')
    (en : String × (Option String × List String)) (hdone : entryDone evs en) :
    entryDone evs' en := by
  intro t ht ev hev src hsrc
  rcases hfind : evs.find? (fun e => e.get_id = t) with _ | a
  · rw [find?_forall₂_none t h hfind] at hev
    cases hev
  · obtain ⟨b, hb, hab⟩ := find?_forall₂_some t h hfind
    rw [hb] at hev
    cases hev
    exact patchedFrom_mem hab (hdone t ht a hfind src hsrc)

theorem foldl_patchEntry_forall₂ (R : LstateNames) :
    ∀ evs : List EventM, List.Forall₂ patchedFrom evs (R.foldl patchEntry evs) := by
  induction R with
  | nil => exact fun evs => List.forall₂_same.mpr (fun x _ => patchedFrom_refl x)
  | cons en rest ih =>
    intro evs
    rw [List.foldl_cons]
    exact forall₂_patchedFrom_trans (patchEntry_forall₂ evs en) (ih _)

theorem foldl_patchEntry_done (R : LstateNames) :
    ∀ evs : List EventM, ∀ en ∈ R, entryDone (R.foldl patchEntry evs) en := by
  induction R with
  | nil => intro evs en hen; cases hen
  | cons en0 rest ih =>
    intro evs en hen
    rw [List.foldl_cons]
    rcases List.mem_cons.mp hen with h | h
    · subst h
      exact entryDone_mono (foldl_patchEntry_forall₂ rest _)
        en (entryDone_patchEntry_self evs en)
    · exact ih _ en h

theorem foldl_patchEntry_eq_of_done (R : LstateNames) :
    ∀ evs : List EventM, (∀ en ∈ R, entryDone evs en) → R.foldl patchEntry evs = evs := by
  induction R with
  | nil => intro evs _; rfl
  | cons en rest ih =>
    intro evs hdone
    rw [List.foldl_cons, patchEntry_eq_of_done evs en (hdone en (by simp))]
    exact ih evs (fun en' h => hdone en' (by simp [h]))

/-- The structural patch is idempotent. -/
theorem patchPass_idem (s : Behaviors) : patchPass (patchPass s) = patchPass s := by
  show { s with events := (patchPass s).lstate_names.foldl patchEntry (patchPass s).events } =
    patchPass s
  have hln : (patchPass s).lstate_names = s.lstate_names := rfl
  have hev : (patchPass s).events = s.lstate_names.foldl patchEntry s.events := rfl
  rw [hln, hev, foldl_patchEntry_eq_of_done s.lstate_names _
    (foldl_patchEntry_done s.lstate_names s.events)]
  rfl

/-! ### Stability of the spawn-merge block after one `get_json` round -/

theorem applySpawnData_get_id (s : Behaviors) (e : EventM) :
    (applySpawnData s e).get_id = e.get_id := by
  cases e
  rfl

theorem applySpawnData_set_properties (s : Behaviors) (e : EventM) :
    (applySpawnData s e).core.set_properties = s.spawn_properties := by
  cases e
  rfl

theorem applySpawnData_eq_self (s : Behaviors) (e : EventM)
    (hg : s.spawn_groups = []) (hrz : s.spawn_randomizers = [])
    (hsq : s.spawn_sequential_events = [])
    (hsp : e.core.set_properties = s.spawn_properties) :
    applySpawnData s e = e := by
  cases e with
  | mk c seq =>
    simp only [applySpawnData]
    rw [hg, hrz, hsq, List.append_nil, List.append_nil, List.append_nil, ← hsp]
    rfl

theorem find?_append_none {α : Type} (p : α → Bool) :
    ∀ {l1 : List α} (l2 : List α), l1.find? p = none →
      (l1 ++ l2).find? p = l2.find? p := by
  intro l1
  induction l1 with
  | nil => intro l2 _; rfl
  | cons x rest ih =>
    intro l2 hnone
    have hx : p x = false := by
      rcases hpx : p x with _ | _
      · rfl
      · rw [List.find?_cons_of_pos _ hpx] at hnone
        cases hnone
    rw [List.cons_append, List.find?_cons_of_neg _ (by simp [hx])]
    exact ih l2 (by rw [List.find?_cons_of_neg _ (by simp [hx])] at hnone; exact hnone)

/-- The fresh `minecraft:entity_spawned` event the spawn-merge block creates
when none exists yet. -/
def freshSpawnEvent : EventM :=
  .mk { identifier := "entity_spawned", namespace_ := some "minecraft" } []

/-- After one `get_json` round with pending spawn properties, the document
state's spawn event exists and already carries exactly the spawn
properties. -/
theorem spawn_event_fixed (s : Behaviors) (hsp : s.spawn_properties ≠ []) :
    ∃ b, (patchPass (spawnPass s)).events.find?
        (fun e => e.get_id = "minecraft:entity_spawned") = some b ∧
      b.core.set_properties = s.spawn_properties := by
  have hcond : s.spawn_groups.length > 0 ∨ s.spawn_randomizers.length > 0 ∨
      s.spawn_sequential_events.length > 0 ∨ s.spawn_properties.length > 0 :=
    Or.inr (Or.inr (Or.inr (List.length_pos.mpr hsp)))
  have hu : ∃ a, (spawnPass s).events.find?
      (fun e => e.get_id = "minecraft:entity_spawned") = some a ∧
      a.core.set_properties = s.spawn_properties := by
    show ∃ a, (spawnEvents s).find? (fun e => e.get_id = "minecraft:entity_spawned") =
      some a ∧ a.core.set_properties = s.spawn_properties
    rw [spawnEvents, if_pos hcond]
    rcases hfind : s.events.find? (fun e => e.get_id = "minecraft:entity_spawned")
      with _ | a
    · rw [if_neg (by simp [Behaviors.get_event, hfind])]
      show ∃ a, (s.events ++ [applySpawnData s freshSpawnEvent]).find?
          (fun e => e.get_id = "minecraft:entity_spawned") = some a ∧
        a.core.set_properties = s.spawn_properties
      have hid : (applySpawnData s freshSpawnEvent).get_id =
          "minecraft:entity_spawned" := by
        rw [applySpawnData_get_id]
        decide
      refine ⟨applySpawnData s freshSpawnEvent, ?_,
        applySpawnData_set_properties s freshSpawnEvent⟩
      rw [find?_append_none _ _ hfind]
      exact List.find?_cons_of_pos _ (by simp [hid])
    · rw [if_pos (by simp [Behaviors.get_event, hfind])]
      refine ⟨applySpawnData s a, ?_, applySpawnData_set_properties s a⟩
      rw [find?_updateFirstEvent _ _ (fun e => applySpawnData_get_id s e) s.events, hfind]
      rfl
  obtain ⟨a, ha, hprops⟩ := hu
  obtain ⟨b, hb, hab⟩ := find?_forall₂_some "minecraft:entity_spawned"
    (foldl_patchEntry_forall₂ (spawnPass s).lstate_names (spawnPass s).events) ha
  exact ⟨b, hb, hab.2.2.2.2.2.1.trans hprops⟩

theorem spawnEvents_eq_of_no_data (v : Behaviors)
    (hg : v.spawn_groups = []) (hrz : v.spawn_randomizers = [])
    (hsq : v.spawn_sequential_events = []) (hsp : v.spawn_properties = []) :
    spawnEvents v = v.events := by
  rw [spawnEvents, if_neg (by simp [hg, hrz, hsq, hsp])]

theorem spawnEvents_eq_self_of_fixed (v : Behaviors) (b : EventM)
    (hg : v.spawn_groups = []) (hrz : v.spawn_randomizers = [])
    (hsq : v.spawn_sequential_events = [])
    (hb : v.events.find? (fun e => e.get_id = "minecraft:entity_spawned") = some b)
    (hprops : b.core.set_properties = v.spawn_properties) :
    spawnEvents v = v.events := by
  rw [spawnEvents]
  by_cases hcond : v.spawn_groups.length > 0 ∨ v.spawn_randomizers.length > 0 ∨
      v.spawn_sequential_events.length > 0 ∨ v.spawn_properties.length > 0
  · rw [if_pos hcond, if_pos (by simp [Behaviors.get_event, hb])]
    refine updateFirstEvent_eq_self _ _ v.events (fun ev hev => ?_)
    rw [hb] at hev
    cases hev
    exact applySpawnData_eq_self v _ hg hrz hsq hprops
  · rw [if_neg hcond]

theorem spawnPass_eq_self (v : Behaviors) (h : spawnEvents v = v.events) :
    spawnPass v = v := by
  show { v with events := spawnEvents v } = v
  rw [h]

/-- Once `get_json` has merged the spawn data and patched the branches, a
second spawn merge changes nothing, provided no spawn groups, randomizers or
sequential spawn events are pending (those three are re-appended on every
call). -/
theorem spawnPass_stable (s : Behaviors)
    (hg : s.spawn_groups = []) (hrz : s.spawn_randomizers = [])
    (hsq : s.spawn_sequential_events = []) :
    spawnPass (patchPass (spawnPass s)) = patchPass (spawnPass s) := by
  by_cases hsp : s.spawn_properties = []
  · exact spawnPass_eq_self _ (spawnEvents_eq_of_no_data _ hg hrz hsq hsp)
  · obtain ⟨b, hb, hprops⟩ := spawn_event_fixed s hsp
    exact spawnPass_eq_self _ (spawnEvents_eq_self_of_fixed _ b hg hrz hsq hb hprops)

/-! ## Claim scenarios and theorems -/

/-- `add_loop_state()` with every parameter left at its default. -/
def lp0 : LoopParams := {}

/-- Project an entity's event list to (identifier, remove-list, the unread
`remove_groups` attribute). -/
def eventsView (e : Entity) : List (String × List String × Option (List String)) :=
  e.behaviors.events.map (fun ev =>
    (ev.core.identifier, ev.core.remove_groups, ev.core.remove_groups_attr))

/-- The document produced by `Behaviors.get_json`, without the post-call
state. -/
def docOf (e : Entity) : Option JVal :=
  (e.behaviors.get_json).map (fun dp => dp.1)

/-- Path to an event's remove-list inside a behavior document. -/
def removePath (state : String) : List String :=
  ["minecraft:entity", "events", state, "remove", "component_groups"]

/-! ### C1 — `last_state=True` and state 0's remove-list -/

/-- Three loop states 0,1,2, `last_state=True` on the third, no timers. -/
def c1Entity : Option Entity :=
  runCalls [lp0, lp0, { last_state := true }] (mkEntity "ns" "mob")

/-- C1: the sequence-closing branch of `add_loop_state` assigns
`["state_2"]` to the attribute `remove_groups`, which `Event.get_json` never
reads (it reads `_remove_groups`), so in the document built by
`Behaviors.get_json` state 0's event remove-list stays `["state_-1"]` instead
of the claimed `["state_2"]`; state 1's remove-list is `["state_0"]` as
claimed. -/
theorem c1_last_state_cycle_never_serialized :
    (c1Entity.map eventsView) =
      some [("state_0", ["state_-1"], some ["state_2"]),
            ("state_1", ["state_0"], none),
            ("state_2", ["state_1"], none)] ∧
    (c1Entity.bind fun e => (docOf e).bind fun d => jpath d (removePath "state_0")) =
      some (.arr [.s "state_-1"]) ∧
    (c1Entity.bind fun e => (docOf e).bind fun d => jpath d (removePath "state_1")) =
      some (.arr [.s "state_0"]) := by
  decide!

/-! ### C2 — direction of the structural branch-resolution patch -/

/-- Branch name `"hurt"` registered as an inbound connection while creating
state 1, then assigned by `name="hurt"` while creating state 3. -/
def c2Entity : Option Entity :=
  runCalls [lp0, { connection_list := some ["hurt"] }, lp0, { name := some "hurt" }]
    (mkEntity "ns" "mob")

def c2Doc : Option JVal := c2Entity.bind docOf

/-- Whether a looked-up document value is an array containing `x`. -/
def arrContains (v : Option JVal) (x : JVal) : Bool :=
  match v with
  | some (.arr vs) => vs.contains x
  | _ => false

/-- C2 (counterexample): after `Behaviors.get_json`, state 1's event
remove-list is exactly `["state_0"]` — it does **not** contain `"state_3"` as
the claim states. -/
theorem c2_source_remove_list_unchanged :
    c2Doc.bind (fun d => jpath d (removePath "state_1")) =
      some (.arr [.s "state_0"]) ∧
    arrContains (c2Doc.bind (fun d => jpath d (removePath "state_1"))) (.s "state_3") =
      false := by
  decide!

/-- C2 (amended): the structural patch runs the other way round: each
registered *source* state's id is appended to the resolved *target* state's
event remove-list (if not already present), so here state 3's event
remove-list becomes `["state_2", "state_1"]`, gaining `"state_1"`. -/
theorem c2_target_gains_source_removal :
    c2Doc.bind (fun d => jpath d (removePath "state_3")) =
      some (.arr [.s "state_2", .s "state_1"]) := by
  decide!

/-! ### C5 — transition-entry orientation in serialized controllers -/

/-- A fresh entity with one behavior animation controller, two plain loop
states, then loop state 2 with entry commands. -/
def c5Entity : Option Entity :=
  runCalls [lp0, lp0, { entry_commands := some ["/say hi"] }]
    ((mkEntity "n" "m").create_banco "b").1

/-- The serialized behavior controller of the scenario. -/
def c5Json : Option JVal :=
  c5Entity.bind (fun e => (e.bancos.get? 0).bind AnimationController.get_json)

def c5StatesPath (st : String) : List String :=
  ["animation_controllers", "controller.animation.m_b", "states", st, "transitions"]

/-- C5 (counterexample): the serialized transition entries are keyed by the
*target state id* with the condition as the value.  In the `init` state the
single transition entry has no key `"query.skin_id==2"`, and in `state_2` the
single entry has no key `"query.skin_id!=2"`, so the claimed
condition-keyed entries do not exist. -/
theorem c5_transitions_not_condition_keyed :
    (c5Json.bind (fun d => jpath d (c5StatesPath "init"))).map
        (fun v => match v with
          | .arr ts => ts.all (fun t => (t.lookup "query.skin_id==2").isNone)
          | _ => false) = some true ∧
    (c5Json.bind (fun d => jpath d (c5StatesPath "state_2"))).map
        (fun v => match v with
          | .arr ts => ts.all (fun t => (t.lookup "query.skin_id!=2").isNone)
          | _ => false) = some true := by
  decide!

/-- C5 (amended): in the `init` hub state the transition entry is keyed by the
target `"state_2"` with value `"query.skin_id==2"`, and in `state_2` it is
keyed by `"init"` with value `"query.skin_id!=2"`. -/
theorem c5_transitions_keyed_by_target :
    c5Json.bind (fun d => jpath d (c5StatesPath "init")) =
      some (.arr [.obj [("state_2", .s "query.skin_id==2")]]) ∧
    c5Json.bind (fun d => jpath d (c5StatesPath "state_2")) =
      some (.arr [.obj [("init", .s "query.skin_id!=2")]]) := by
  decide!

/-! ### C4 — the linear remove-chain without `last_state` -/

/-- C4: after `N` consecutive `add_loop_state` calls on a fresh entity, all
with `last_state=False`, state `k`'s event (for `1 ≤ k ≤ N-1`) removes exactly
state `k-1`'s group, and state 0's event holds no removal of the final state's
group (its only removal is the nonexistent `state_-1`). -/
theorem c4_linear_remove_chain (ns nm : String) (ps : List LoopParams)
    (hlast : ∀ p ∈ ps, p.last_state = false) (e' : Entity)
    (h : runCalls ps (mkEntity ns nm) = some e') :
    (∀ k : Nat, 1 ≤ k → k < ps.length →
      (e'.behaviors.events.get? k).map (fun ev => ev.core.remove_groups) =
        some [stateId ((k : Int) - 1)]) ∧
    (∀ ev0, e'.behaviors.events.get? 0 = some ev0 →
      stateId ((ps.length : Int) - 1) ∉ ev0.core.remove_groups) := by
  obtain ⟨hev, -⟩ := runCalls_linear ps hlast (mkEntity ns nm) e' h
  have h0 : (mkEntity ns nm).behaviors.events = [] := rfl
  have hcs0 : (mkEntity ns nm).current_state = 0 := rfl
  rw [h0, hcs0, List.nil_append] at hev
  constructor
  · intro k hk1 hk2
    rw [hev, linEvents_get? 0 ps k]
    rcases hp : ps.get? k with _ | p
    · have := List.get?_eq_none.mp hp
      omega
    · rw [Option.map_some', Option.map_some', linEvent, core_mk]
      have : (0 : Int) + (k : Int) - 1 = (k : Int) - 1 := by omega
      rw [this]
  · intro ev0 hev0
    rcases ps with _ | ⟨p, ps⟩
    · rw [hev] at hev0
      simp [linEvents] at hev0
    · rw [hev] at hev0
      simp only [linEvents, List.get?_cons_zero, Option.some.injEq] at hev0
      subst hev0
      rw [linEvent, core_mk]
      have hz : (0 : Int) - 1 = -1 := by omega
      rw [hz]
      have hlen : ((p :: ps).length : Int) - 1 = ((p :: ps).length - 1 : Nat) := by
        simp only [List.length_cons]
        omega
      rw [hlen]
      simp only [List.mem_singleton]
      exact stateId_nonneg_ne _

/-- C4 witness: two plain calls on a fresh entity. -/
theorem c4_linear_remove_chain_witness :
    (runCalls [lp0, lp0] (mkEntity "a" "b")).map (fun e' =>
      ((e'.behaviors.events.get? 1).map (fun ev => ev.core.remove_groups),
       (e'.behaviors.events.get? 0).map
         (fun ev => decide (stateId 1 ∈ ev.core.remove_groups)))) =
      some (some [stateId 0], some false) := by
  have hS : (runCalls [lp0, lp0] (mkEntity "a" "b")).isSome = true := by decide!
  rcases hE : runCalls [lp0, lp0] (mkEntity "a" "b") with _ | e'
  · rw [hE] at hS
    exact absurd hS (by decide)
  · obtain ⟨h1, h2⟩ := c4_linear_remove_chain "a" "b" [lp0, lp0]
      (by
        intro p hp
        have hp' : p = lp0 ∨ p = lp0 := by simpa using hp
        rcases hp' with h | h <;> (rw [h]; rfl)) e' hE
    have hone : (e'.behaviors.events.get? 1).map (fun ev => ev.core.remove_groups) =
        some [stateId 0] := by
      have hk := h1 1 (by omega) (by simp)
      have hz : ((1 : Nat) : Int) - 1 = 0 := by omega
      rwa [hz] at hk
    have hzero : (e'.behaviors.events.get? 0).map
        (fun ev => decide (stateId 1 ∈ ev.core.remove_groups)) = some false := by
      rcases hv : e'.behaviors.events.get? 0 with _ | ev0
      · have hlen0 := List.get?_eq_none.mp hv
        have : e'.behaviors.events.get? 1 = none := List.get?_eq_none.mpr (by omega)
        rw [this] at hone
        exact absurd hone (by simp)
      · have hmem := h2 ev0 hv
        have hlen : ((([lp0, lp0] : List LoopParams).length : Nat) : Int) - 1 = 1 := by
          decide
        rw [hlen] at hmem
        rw [Option.map_some']
        simp [hmem]
    rcases hw : e'.behaviors.events.get? 1 with _ | ev1
    · rw [hw] at hone
      exact absurd hone (by simp)
    rcases hv : e'.behaviors.events.get? 0 with _ | ev0
    · rw [hv] at hzero
      exact absurd hzero (by simp)
    rw [hw, Option.map_some', Option.some.injEq] at hone
    rw [hv, Option.map_some', Option.some.injEq] at hzero
    simp only [Option.map_some']
    refine congrArg some (Prod.ext ?_ ?_)
    · rw [hw, Option.map_some', hone]
    · rw [hv, Option.map_some', hzero]

/-! ### C6 — timer target selection and connection auto-creation -/

/-- C6: with a timer duration, the new component group carries (right after
its skin id) a timer component aimed at the explicit `timer_state` branch if
given, else the next sequential state id, else — `last_state` — `state_0`;
and when `timer_state` is given with no `connection_list`, the branch is
nevertheless registered as an inbound connection of the new state (a
connection list containing `timer_state` is auto-created). -/
theorem c6_timer_target_and_auto_connection (p : LoopParams) (e e' : Entity)
    (tl : JVal) (h : addLoopState p e = some e') (htl : p.timer_len = some tl) :
    (e'.behaviors.component_groups.getLast?).map (fun g => g.components.get? 1) =
      some (some (component_timer tl (loopTimerTarget p e))) ∧
    (∀ ts, p.timer_state = some ts → p.connection_list = none →
      ∃ t0 ss,
        (e'.behaviors.lstate_names.find? (fun en => en.1 = ts)).map (fun en => en.2) =
          some (t0, ss ++ [stateId e.current_state])) := by
  constructor
  · rw [addLoopState_groups p e e' h, List.getLast?_concat, Option.map_some']
    obtain ⟨rest, hrest⟩ := loopGroup_timer p e tl htl
    rw [hrest]
    rfl
  · intro ts hts hcl
    rw [addLoopState_lnames p e e' h]
    have hcle : effectiveConnList p = some [ts] := by
      rw [effectiveConnList, htl, hts, hcl]
    rw [hcle]
    exact connOne_registers (stateId e.current_state) _ ts

/-- C6 witness: a timer with an explicit branch target and no connection list
on a fresh entity. -/
theorem c6_timer_target_and_auto_connection_witness :
    ∃ e', addLoopState { timer_len := some (.f "1.0"), timer_state := some "brx" }
        (mkEntity "a" "b") = some e' ∧
      (e'.behaviors.component_groups.getLast?).map (fun g => g.components.get? 1) =
        some (some (component_timer (.f "1.0") "brx")) ∧
      ∃ t0 ss,
        (e'.behaviors.lstate_names.find? (fun en => en.1 = "brx")).map (fun en => en.2) =
          some (t0, ss ++ ["state_0"]) := by
  have hS : (addLoopState { timer_len := some (.f "1.0"), timer_state := some "brx" }
      (mkEntity "a" "b")).isSome = true := by decide!
  rcases hE : addLoopState { timer_len := some (.f "1.0"), timer_state := some "brx" }
      (mkEntity "a" "b") with _ | e'
  · rw [hE] at hS
    exact absurd hS (by decide)
  · obtain ⟨h1, h2⟩ := c6_timer_target_and_auto_connection _ (mkEntity "a" "b") e'
      (.f "1.0") hE rfl
    exact ⟨e', rfl, h1, h2 "brx" rfl rfl⟩

/-! ### C7 — at most one `init` hub, carrying all registered transitions -/

/-- C7: for any sequence of `add_loop_state` calls on an entity whose
controllers hold no `init` state yet (as `create_banco`/`create_ranco` make
them), every behavior controller's `init` states equal the canonical hub for
the loop states that registered entry/exit commands with it — in particular
there is at most one `init` state, and it carries exactly one
`query.skin_id==<k> ↦ state_<k>` transition per registering state `k` — and
likewise every render controller's for the loop states that registered an
animation with it. -/
theorem c7_init_hub_unique (ps : List LoopParams) (e0 e' : Entity)
    (h : runCalls ps e0 = some e')
    (hb : ∀ j b, e0.bancos.get? j = some b → initsOf b = [])
    (hr : ∀ j r, e0.rancos.get? j = some r → initsOf r = []) :
    (∀ j b', e'.bancos.get? j = some b' →
      initsOf b' = canonInit (bancoSel j e0.current_state ps) ∧
      (initsOf b').length ≤ 1) ∧
    (∀ j r', e'.rancos.get? j = some r' →
      initsOf r' = canonInit (rancoSel j e0.current_state ps) ∧
      (initsOf r').length ≤ 1) := by
  obtain ⟨hbl, hrl⟩ := runCalls_controller_lengths ps e0 e' h
  constructor
  · intro j b' hb'
    have hjlt : j < e'.bancos.length := by
      rcases List.get?_eq_some.mp hb' with ⟨hlt, -⟩
      exact hlt
    rcases hb0 : e0.bancos.get? j with _ | b0
    · have := List.get?_eq_none.mp hb0
      omega
    obtain ⟨b'', hb'', hsel⟩ := runCalls_banco_inits ps e0 e' h j [] b0 hb0
      (by rw [hb j b0 hb0, canonInit]; simp)
    rw [hb'] at hb''
    injection hb'' with hbeq
    rw [← hbeq] at hsel
    refine ⟨by simpa using hsel, ?_⟩
    rw [hsel]
    exact canonInit_len _
  · intro j r' hr'
    have hjlt : j < e'.rancos.length := by
      rcases List.get?_eq_some.mp hr' with ⟨hlt, -⟩
      exact hlt
    rcases hr0 : e0.rancos.get? j with _ | r0
    · have := List.get?_eq_none.mp hr0
      omega
    obtain ⟨r'', hr'', hsel⟩ := runCalls_ranco_inits ps e0 e' h j [] r0 hr0
      (by rw [hr j r0 hr0, canonInit]; simp)
    rw [hr'] at hr''
    injection hr'' with hreq
    rw [← hreq] at hsel
    refine ⟨by simpa using hsel, ?_⟩
    rw [hsel]
    exact canonInit_len _

/-- An entity with one fresh behavior and one fresh render controller. -/
def c7e0 : Entity := (((mkEntity "a" "b").create_banco "bb").1.create_ranco "rr").1

/-- State 0 registers entry commands with banco 0, state 1 is plain, and
state 2 registers an animation with ranco 0. -/
def c7ps : List LoopParams :=
  [{ entry_commands := some ["/say hi"] }, lp0, { animation := some "anim" }]

/-- C7 witness: the canonical hub shapes at the concrete three-call
scenario. -/
theorem c7_init_hub_unique_witness :
    ∃ (e' : Entity) (b' r' : AnimationController),
      runCalls c7ps c7e0 = some e' ∧
      e'.bancos.get? 0 = some b' ∧
      initsOf b' = canonInit (bancoSel 0 0 c7ps) ∧
      e'.rancos.get? 0 = some r' ∧
      initsOf r' = canonInit (rancoSel 0 0 c7ps) := by
  have hS : (runCalls c7ps c7e0).isSome = true := by decide!
  rcases hE : runCalls c7ps c7e0 with _ | e'
  · rw [hE] at hS
    exact absurd hS (by decide)
  have hfresh_b : ∀ j b, c7e0.bancos.get? j = some b → initsOf b = [] := by
    intro j b hjb
    match j with
    | 0 =>
      have : b = c7e0.bancos.get ⟨0, by decide⟩ := by
        rw [List.get?_eq_getElem?, List.getElem?_eq_getElem (by decide)] at hjb
        injection hjb with hq
        rw [← hq]
        rfl
      rw [this]
      rfl
    | j + 1 => simp [c7e0, Entity.create_banco, Entity.create_ranco, mkEntity] at hjb
  have hfresh_r : ∀ j r, c7e0.rancos.get? j = some r → initsOf r = [] := by
    intro j r hjr
    match j with
    | 0 =>
      have : r = c7e0.rancos.get ⟨0, by decide⟩ := by
        rw [List.get?_eq_getElem?, List.getElem?_eq_getElem (by decide)] at hjr
        injection hjr with hq
        rw [← hq]
        rfl
      rw [this]
      rfl
    | j + 1 => simp [c7e0, Entity.create_banco, Entity.create_ranco, mkEntity] at hjr
  obtain ⟨h1, h2⟩ := c7_init_hub_unique c7ps c7e0 e' hE hfresh_b hfresh_r
  obtain ⟨hbl, hrl⟩ := runCalls_controller_lengths c7ps c7e0 e' hE
  rcases hb0 : e'.bancos.get? 0 with _ | b'
  · have h0 := List.get?_eq_none.mp hb0
    have : c7e0.bancos.length = 1 := rfl
    omega
  rcases hr0 : e'.rancos.get? 0 with _ | r'
  · have h0 := List.get?_eq_none.mp hr0
    have : c7e0.rancos.length = 1 := rfl
    omega
  obtain ⟨hb1, -⟩ := h1 0 b' hb0
  obtain ⟨hr1, -⟩ := h2 0 r' hr0
  exact ⟨e', b', r', rfl, hb0, by simpa [c7e0] using hb1, hr0, by simpa [c7e0] using hr1⟩

/-! ### C9 — unresolved branch names are silently skipped -/

/-- State 0 with a timer aimed at branch `"brx"`, which is never assigned a
target state: the registry keeps `["brx" ↦ [None, "state_0"]]`. -/
def c9Entity : Option Entity :=
  runCalls [{ timer_len := some (.f "1.0"), timer_state := some "brx" }]
    (mkEntity "ns" "mob")

def c9Doc : Option JVal := c9Entity.bind docOf

/-- C9: a branch name registered only as a connection source (target slot
still `None`) causes no error and no substitution: `get_event` finds no event
for the `None` target, the structural patch leaves the events unchanged, the
textual pass leaves the serialized text unchanged for that entry — and in the
scenario's output document the branch-name token `"brx"` survives verbatim
inside the timer component, while `Behaviors.get_json` still returns a
document. -/
theorem c9_unresolved_branch_left_in_place :
    (∀ evs : List EventM, getEventTarget evs none = none) ∧
    (∀ (evs : List EventM) (k : String) (srcs : List String),
      patchEntry evs (k, (none, srcs)) = evs) ∧
    (∀ (str k : String) (srcs : List String),
      replOne str (k, (none, srcs)) = str) ∧
    c9Doc.bind (fun d => jpath d ["minecraft:entity", "component_groups", "state_0",
      "minecraft:timer", "time_down_event", "event"]) = some (.s "brx") :=
  ⟨fun _ => rfl, fun _ _ _ => rfl, fun _ _ _ => rfl, by decide!⟩

/-! ### C8 — the three serialization shapes of `Event.get_json` -/

/-- An event with one randomizer, one add-group, and one sequential
sub-event. -/
def c8Event : EventM :=
  .mk { identifier := "e", add_groups := ["g"], randomizers := [{}] }
    [.mk { identifier := "e2" } []]

/-- C8 (counterexample): with a sequential sub-event also present, the
randomizer-built object is itself wrapped once more, so the outer `sequence`'s
first element is a nested `sequence` object — not the claimed
`{"add": {"component_groups": [...]}}` — and its last element is the empty
sub-event object, not `{"randomize": [...]}`. -/
theorem c8_sequence_rewrapped_on_sequential_events :
    c8Event.get_json =
      .obj [("sequence", .arr
        [.obj [("sequence", .arr
          [.obj [("add", .obj [("component_groups", .arr [.s "g"])])],
           .obj [("randomize", .arr [.obj [("weight", .i 1)]])]])],
         .obj []])] ∧
    ((c8Event.get_json).lookup "sequence" |>.map (fun v =>
      match v with
      | .arr (first :: _) => (first.lookup "add").isNone
      | _ => false)) = some true := by
  decide!

/-- The trigger object appended when a next event is set. -/
def triggerPart : Option String → List (String × JVal)
  | some t => [("trigger", .obj [("event", .s t), ("target", .s "self")])]
  | none => []

/-- Everything `Event.get_json` builds before the final `trigger` assignment:
the randomizer-or-plain object, re-wrapped once more when sequential
sub-events exist. -/
def preFields (c : EventData) (seq : List EventM) : List (String × JVal) :=
  let o : List (String × JVal) :=
    if c.randomizers.length > 0 then
      let sl : List JVal :=
        (if c.add_groups.length > 0 then
          [.obj [("add", .obj [("component_groups", .arr (c.add_groups.map .s))])]]
         else []) ++
        (if c.remove_groups.length > 0 then
          [.obj [("remove", .obj [("component_groups", .arr (c.remove_groups.map .s))])]]
         else []) ++
        (if c.set_properties.length > 0 then
          [.obj [("set_property", .obj (setPropsObj c.set_properties))]]
         else []) ++
        [.obj [("randomize", .arr (c.randomizers.map EventRandomizer.get_json))]]
      [("sequence", .arr sl)]
    else
      (if c.add_groups.length > 0 then
        [("add", .obj [("component_groups", .arr (c.add_groups.map .s))])]
       else []) ++
      (if c.remove_groups.length > 0 then
        [("remove", .obj [("component_groups", .arr (c.remove_groups.map .s))])]
       else []) ++
      (if c.set_properties.length > 0 then
        [("set_property", .obj (setPropsObj c.set_properties))]
       else [])
  if seq.length > 0 then
    [("sequence", .arr (.obj o :: seq.attach.map (fun e => e.1.get_json)))]
  else o

theorem get_json_eq_preFields (c : EventData) (seq : List EventM) :
    (EventM.mk c seq).get_json =
      match c.next_event with
      | some t => .obj (jput (preFields c seq) "trigger"
          (.obj [("event", .s t), ("target", .s "self")]))
      | none => .obj (preFields c seq) := by
  rcases hne : c.next_event with _ | t <;>
    simp only [EventM.get_json, preFields, hne]

theorem preFields_next_event_irrel (c : EventData) (seq : List EventM) :
    preFields { c with next_event := none } seq = preFields c seq := by
  cases c
  rfl

theorem preFields_no_trigger (c : EventData) (seq : List EventM) :
    ∀ kv ∈ preFields c seq, kv.1 ≠ "trigger" := by
  intro kv hkv
  simp only [preFields] at hkv
  split at hkv
  · simp only [List.mem_singleton] at hkv
    subst hkv
    simp
  · split at hkv
    · simp only [List.mem_singleton] at hkv
      subst hkv
      simp
    · rcases List.mem_append.mp hkv with h | h
      · rcases List.mem_append.mp h with h' | h'
        · split at h'
          · simp only [List.mem_singleton] at h'
            subst h'
            simp
          · exact absurd h' (List.not_mem_nil kv)
        · split at h'
          · simp only [List.mem_singleton] at h'
            subst h'
            simp
          · exact absurd h' (List.not_mem_nil kv)
      · split at h
        · simp only [List.mem_singleton] at h
          subst h
          simp
        · exact absurd h (List.not_mem_nil kv)

/-- `d[k] = v` on a dict not containing key `k` appends the pair at the
end. -/
theorem jput_append (k : String) (v : JVal) :
    ∀ kvs : List (String × JVal), (∀ kv ∈ kvs, kv.1 ≠ k) →
      jput kvs k v = kvs ++ [(k, v)] := by
  intro kvs
  induction kvs with
  | nil => intro _; rfl
  | cons kv rest ih =>
    intro h
    obtain ⟨k', v'⟩ := kv
    rw [jput, if_neg (h (k', v') (by simp)), ih (fun kv hkv => h kv (by simp [hkv]))]
    rfl

/-- C8 (amended): for an event with at least one randomizer, at least one
add-group, and *no sequential sub-events*, the serialization's first key is
`sequence`, whose array starts with the add-wrapper and ends with the
randomize-wrapper (remove/set_property parts, if any, sit in between); and for
*every* event — plain, randomizer-wrapped or sequence-wrapped — the serialized
object consists of the same fields as the trigger-free serialization of the
event, with the `trigger` object appended after everything else exactly when a
next-event id is set. -/
theorem c8_randomizer_sequence_shape :
    (∀ (id : String) (ns : Option String) (ag rg : List String)
        (rnds : List EventRandomizer) (sp : List (String × JVal))
        (ne : Option String) (ra : Option (List String)),
        ag ≠ [] → rnds ≠ [] →
        (EventM.mk ⟨id, ns, ag, rg, rnds, sp, ne, ra⟩ []).get_json =
          .obj ([("sequence", .arr
            ([.obj [("add", .obj [("component_groups", .arr (ag.map .s))])]] ++
             ((if rg.length > 0 then
                [JVal.obj [("remove", .obj [("component_groups", .arr (rg.map .s))])]]
               else []) ++
              (if sp.length > 0 then
                [JVal.obj [("set_property", .obj (setPropsObj sp))]]
               else [])) ++
             [.obj [("randomize", .arr (rnds.map EventRandomizer.get_json))]]))] ++
            triggerPart ne)) ∧
    (∀ (c : EventData) (seq : List EventM),
        (EventM.mk c seq).get_json =
          .obj (preFields c seq ++ triggerPart c.next_event) ∧
        (EventM.mk { c with next_event := none } seq).get_json =
          .obj (preFields c seq)) := by
  constructor
  · intro id ns ag rg rnds sp ne ra hag hrnds
    have hag' : ag.length > 0 := List.length_pos.mpr hag
    have hrnds' : rnds.length > 0 := List.length_pos.mpr hrnds
    cases ne with
    | none =>
      simp [EventM.get_json, hag', hrnds', triggerPart, List.append_assoc]
    | some t =>
      simp [EventM.get_json, hag', hrnds', triggerPart, jput, List.append_assoc]
  · intro c seq
    constructor
    · rw [get_json_eq_preFields]
      rcases hne : c.next_event with _ | t
      · simp only [triggerPart, List.append_nil]
      · simp only [triggerPart]
        rw [jput_append "trigger" _ (preFields c seq) (preFields_no_trigger c seq)]
    · rw [get_json_eq_preFields, preFields_next_event_irrel]

/-- C8 witness: both amended parts at concrete events — the randomizer shape
with a next event set, and trigger-appending on a sequence-wrapped event. -/
theorem c8_randomizer_sequence_shape_witness :
    ((EventM.mk ⟨"e", none, ["g"], [], [{}], [], some "nxt", none⟩ []).get_json =
      .obj ([("sequence", .arr
        ([.obj [("add", .obj [("component_groups", .arr (["g"].map .s))])]] ++
         (([] : List JVal) ++ ([] : List JVal)) ++
         [.obj [("randomize", .arr ([({} : EventRandomizer)].map EventRandomizer.get_json))]]))] ++
        triggerPart (some "nxt"))) ∧
    ((EventM.mk ⟨"e2", none, [], [], [], [], some "nxt", none⟩
        [.mk ⟨"s", none, [], [], [], [], none, none⟩ []]).get_json =
      .obj (preFields ⟨"e2", none, [], [], [], [], some "nxt", none⟩
        [.mk ⟨"s", none, [], [], [], [], none, none⟩ []] ++ triggerPart (some "nxt"))) :=
  ⟨c8_randomizer_sequence_shape.1 "e" none ["g"] [] [{}] [] (some "nxt") none
    (by decide) (by simp),
   (c8_randomizer_sequence_shape.2 ⟨"e2", none, [], [], [], [], some "nxt", none⟩
    [.mk ⟨"s", none, [], [], [], [], none, none⟩ []]).1⟩

/-! ### C10 — the first loop state removes the nonexistent `state_-1` -/

/-- C10: on a fresh entity, any successful first `add_loop_state` call leaves
exactly one event, `state_0`, whose remove-list is exactly `["state_-1"]` —
`prev_lstate` of state 0, a loop state that can never exist since indices
start at 0 — and in a build where nothing replaces that list, the serialized
document's `state_0` event removes the nonexistent group `state_-1`. -/
theorem c10_first_event_removes_state_minus_one :
    (∀ (ns nm : String) (p : LoopParams) (e' : Entity),
      addLoopState p (mkEntity ns nm) = some e' →
      e'.behaviors.events.map (fun ev => (ev.core.identifier, ev.core.remove_groups)) =
        [("state_0", ["state_-1"])]) ∧
    ((runCalls [lp0] (mkEntity "ns" "mob")).bind docOf).bind
        (fun d => jpath d (removePath "state_0")) = some (.arr [.s "state_-1"]) := by
  refine ⟨?_, by decide!⟩
  intro ns nm p e' h
  obtain ⟨-, hev⟩ := addLoopState_events p (mkEntity ns nm) e' h
  have hle : loopEvent p (mkEntity ns nm) =
      EventM.mk ⟨"state_0", none, ["state_0"], ["state_-1"], [],
        p.set_properties.getD [], none, none⟩ [] := rfl
  have h0 : (mkEntity ns nm).behaviors.events = [] := rfl
  have hcs : (mkEntity ns nm).current_state = 0 := rfl
  rw [hcs, h0, hle] at hev
  rw [hev]
  split <;> simp [markLast, modifyCore_core, core_mk]

/-- C10 witness: the general part at a concrete fresh entity and default
parameters. -/
theorem c10_first_event_removes_state_minus_one_witness :
    (addLoopState lp0 (mkEntity "a" "b")).map
      (fun e' => e'.behaviors.events.map
        (fun ev => (ev.core.identifier, ev.core.remove_groups))) =
      some [("state_0", ["state_-1"])] := by
  have hS : (addLoopState lp0 (mkEntity "a" "b")).isSome = true := by decide!
  rcases hE : addLoopState lp0 (mkEntity "a" "b") with _ | e'
  · rw [hE] at hS
    exact absurd hS (by decide)
  · rw [Option.map_some']
    exact congrArg some
      (c10_first_event_removes_state_minus_one.1 "a" "b" lp0 e' hE)

/-! ### C3 — is a second `Behaviors.get_json` call a no-op? -/

/-- A behavior file with one pending spawn group and nothing else. -/
def c3s : Behaviors := { identifier := "brock:c3", spawn_groups := ["g"] }

/-- Path to the spawn event's added component groups in a behavior document. -/
def c3SpawnAddPath : List String :=
  ["minecraft:entity", "events", "minecraft:entity_spawned", "add", "component_groups"]

/-- The document of one `Behaviors.get_json` call on `c3s`. -/
def c3doc1 : Option JVal := (Behaviors.get_json c3s).map (fun dp => dp.1)

/-- The document of a second `Behaviors.get_json` call, run on the state the
first call returned. -/
def c3doc2 : Option JVal :=
  (Behaviors.get_json c3s).bind (fun dp => (Behaviors.get_json dp.2).map (fun dp2 => dp2.1))

/-- C3 (counterexample): running `Behaviors.get_json` twice is *not* the same
as running it once for every `Behaviors` value: with a pending spawn group the
spawn-merge block re-appends it on every call, so the
`minecraft:entity_spawned` event's add-list grows from `["g"]` to `["g", "g"]`
and the two documents differ. -/
theorem c3_resolution_not_idempotent :
    c3doc1.bind (fun d => jpath d c3SpawnAddPath) = some (.arr [.s "g"]) ∧
    c3doc2.bind (fun d => jpath d c3SpawnAddPath) = some (.arr [.s "g", .s "g"]) ∧
    c3doc1 ≠ c3doc2 := by
  have h1 : c3doc1.bind (fun d => jpath d c3SpawnAddPath) = some (.arr [.s "g"]) := by
    decide!
  have h2 : c3doc2.bind (fun d => jpath d c3SpawnAddPath) =
      some (.arr [.s "g", .s "g"]) := by
    decide!
  refine ⟨h1, h2, fun h => ?_⟩
  rw [h, h2] at h1
  exact absurd h1 (by decide)

/-- C3 (amended): for every `Behaviors` value with no pending spawn groups,
spawn randomizers or sequential spawn events, a second `Behaviors.get_json`
call returns the same document and the same state as the first: the spawn
merge is then stable, the structural branch patch adds no duplicate
remove-list entries, and the textual substitution re-runs on the same text
with the same outcome. -/
theorem c3_resolution_idempotent_without_spawn_data (s : Behaviors)
    (hg : s.spawn_groups = []) (hrz : s.spawn_randomizers = [])
    (hsq : s.spawn_sequential_events = [])
    (d : JVal) (s1 : Behaviors) (h : Behaviors.get_json s = some (d, s1)) :
    Behaviors.get_json s1 = some (d, s1) := by
  have h' : (match textualStage (patchPass (spawnPass s)).lstate_names
        (buildObj (patchPass (spawnPass s))) with
      | none => none
      | some doc =>
        match svStage (patchPass (spawnPass s)).string_variables doc with
        | none => none
        | some doc2 => some (doc2, patchPass (spawnPass s))) = some (d, s1) := h
  rcases ht : textualStage (patchPass (spawnPass s)).lstate_names
      (buildObj (patchPass (spawnPass s))) with _ | doc
  · rw [ht] at h'
    exact absurd h' (by simp)
  simp only [ht] at h'
  rcases hsv : svStage (patchPass (spawnPass s)).string_variables doc with _ | doc2
  · rw [hsv] at h'
    exact absurd h' (by simp)
  simp only [hsv] at h'
  have hd : doc2 = d := congrArg Prod.fst (Option.some.inj h')
  have hs1 : patchPass (spawnPass s) = s1 := congrArg Prod.snd (Option.some.inj h')
  have hfix : patchPass (spawnPass s1) = s1 := by
    rw [← hs1, spawnPass_stable s hg hrz hsq]
    exact patchPass_idem (spawnPass s)
  show (match textualStage (patchPass (spawnPass s1)).lstate_names
        (buildObj (patchPass (spawnPass s1))) with
      | none => none
      | some doc =>
        match svStage (patchPass (spawnPass s1)).string_variables doc with
        | none => none
        | some doc2 => some (doc2, patchPass (spawnPass s1))) = some (d, s1)
  rw [hfix, ← hs1]
  simp only [ht, hsv]
  rw [hd]

/-- A behavior file with no spawn data, two loop-state events, and a resolved
branch registry entry; one `get_json` round patches state 1's remove-list and
substitutes the branch token. -/
def c3w : Behaviors :=
  { identifier := "brock:c3w",
    events := [.mk { identifier := "state_0", remove_groups := ["state_-1"],
                     next_event := some "hurt" } [],
               .mk { identifier := "state_1" } []],
    lstate_names := [("hurt", (some "state_1", ["state_0"]))] }

/-- C3 witness: the amended idempotence at the concrete scenario `c3w`. -/
theorem c3_resolution_idempotent_without_spawn_data_witness :
    (Behaviors.get_json c3w).bind (fun dp => Behaviors.get_json dp.2) =
      Behaviors.get_json c3w := by
  have hS : (Behaviors.get_json c3w).isSome = true := by decide!
  rcases hE : Behaviors.get_json c3w with _ | ds
  · rw [hE] at hS
    exact absurd hS (by decide)
  · exact c3_resolution_idempotent_without_spawn_data c3w rfl rfl rfl ds.1 ds.2 hE

end Brock
